import Mathlib

/-!
# jsonparser: the Ragel driver macros and the `jsontidy` callbacks

A shallow embedding of `RAGEL_PARSE_STREAM` and `RAGEL_PARSE_STRING`
(`src/ragelstuff.h`) together with the types of `src/jsonparser.h` they use,
and of the Writer callbacks of the pretty-printer `src/jsontidy.c`.

Modelling conventions.

* Pointers (`const char *`) are machine addresses, natural numbers below
  `WORD = 2 ^ 64`; `NULL` is the address `0`.  `size_t` values are natural
  numbers below `WORD`.  Pointer and `size_t` arithmetic wraps modulo `WORD`
  (`wadd`, `wsub`).
* Memory is a total map from addresses to bytes.  The scanner only reads it
  (the buffer is reached through `const char *`); the reader and `memmove`
  write it.
* The scanner `exec`, the reader, the automaton constants `name ## _error`,
  `name ## _first_final` and the marker count `max` are parameters of the
  macros: the Ragel-generated scanner is not part of `ragelstuff.h`.
* The `while (!done)` loop of `RAGEL_PARSE_STREAM` is run for a bounded number
  of cycles; `Outcome.running` is the case in which the bound was reached with
  the loop condition still true.
* Every state carries a chronological log of the calls made (reader, scanner,
  `memmove`), so that statements about which calls happen can be written.
-/

namespace JsonParser

/-! ## Machine words -/

/-- Number of values of a `size_t` / of a data pointer (64-bit target). -/
def WORD : Nat := 2 ^ 64

/-- Wrapping addition of `size_t` values and of pointer plus offset. -/
def wadd (a b : Nat) : Nat := (a + b) % WORD

/-- Wrapping subtraction: pointer difference converted to `size_t`. -/
def wsub (a b : Nat) : Nat := (a + (WORD - b % WORD)) % WORD

/-! ## Types of `jsonparser.h` and `ragelstuff.h` -/

/-- The enumeration `enum JSON_PARSER_ERROR` (`jsonparser.h`, lines 37-47). -/
inductive JSON_PARSER_ERROR where
  | UNKNOWN
  | NONE
  | BUFFER
  | MEMORY
  | PARSER
  | PSTACK
  | READER
  | WRITER
  deriving DecidableEq, Repr

/-- Integer value of an enumerator: `UNKNOWN = -1`, `NONE = 0`, then 1..6. -/
def JSON_PARSER_ERROR.toInt : JSON_PARSER_ERROR → Int
  | .UNKNOWN => -1
  | .NONE => 0
  | .BUFFER => 1
  | .MEMORY => 2
  | .PARSER => 3
  | .PSTACK => 4
  | .READER => 5
  | .WRITER => 6

/-- The structure `JSONParserBuffer` (`jsonparser.h`, lines 62-65): `data` is an address. -/
structure JSONParserBuffer where
  data : Nat
  size : Nat
  deriving DecidableEq, Repr

/-- The structure `ExecPrivateBlockData` (`ragelstuff.h`, lines 32-36). -/
structure ExecPrivateBlockData where
  p : Nat
  pe : Nat
  eof : Nat
  deriving DecidableEq, Repr

/-- The members `cs`, `ts`, `te` of `parserFSM` that the macros use
(`ragelstuff.h`, lines 13-20 and 30). -/
structure FiniteStateMachine where
  cs : Int
  ts : Nat
  te : Nat
  deriving DecidableEq, Repr

/-- What the macros reach through `parser`: `parserError`, `parserMarker[]`,
`parserFSM`; `rest` is everything else the scanner and its callbacks keep
(line counter, container stack, user data). -/
structure ParserState (α : Type) where
  parserError : JSON_PARSER_ERROR
  parserMarker : Nat → Nat
  parserFSM : FiniteStateMachine
  rest : α

/-- Result of one reader call `reader(parserUserData, &read, &read.size)`:
the returned flag, the value left in `read.size`, the memory and the reader's
input source afterwards. -/
structure ReaderResult (ρ : Type) where
  ok : Bool
  size : Nat
  mem : Nat → Nat
  source : ρ

/-- A reader (`ReaderFunc`, `jsonparser.h` line 92): from the state of its input
source, the memory and the descriptor `read`. -/
abbrev ReaderFunc (ρ : Type) := ρ → (Nat → Nat) → JSONParserBuffer → ReaderResult ρ

/-- A scanner `exec(parser, &data)`: it reads the memory, updates the parser and
may write `data` back (`RAGEL_WRITE_EXEC_OUT`). -/
abbrev ExecFunc (α : Type) :=
  ParserState α → (Nat → Nat) → ExecPrivateBlockData → ParserState α × ExecPrivateBlockData

/-- The C library `memmove(dst, src, n)` on the memory map. -/
def memmove (mem : Nat → Nat) (dst src n : Nat) : Nat → Nat :=
  fun a => if dst ≤ a ∧ a - dst < n then mem (src + (a - dst)) else mem a

/-- Calls recorded in the log. -/
inductive Event where
  | reader (read : JSONParserBuffer) (ok : Bool) (size : Nat)
  | exec (mem : Nat → Nat) (data : ExecPrivateBlockData)
  | memmove (src : Nat) (n : Nat)

/-- Is the event a reader call? -/
def Event.isReader : Event → Bool
  | .reader _ _ _ => true
  | _ => false

/-- Is the event a scanner run? -/
def Event.isExec : Event → Bool
  | .exec _ _ => true
  | _ => false

/-- Is the event a scanner run with the end-of-input pointer set (`eof != NULL`)? -/
def Event.isExecEof : Event → Bool
  | .exec _ d => d.eof != 0
  | _ => false

/-- Is the event a compaction (`memmove`)? -/
def Event.isMemmove : Event → Bool
  | .memmove _ _ => true
  | _ => false

/-! ## `RAGEL_PARSE_STREAM` -/

/-- Variables of `RAGEL_PARSE_STREAM`: the parser, `buffer`, the memory, the
reader's input source, the caller's `error` flag, the locals `have` and `done`,
and the log. -/
structure StreamState (α ρ : Type) where
  parser : ParserState α
  buffer : JSONParserBuffer
  mem : Nat → Nat
  source : ρ
  error : Bool
  have_ : Nat
  done : Bool
  log : List Event

/-- State of a cycle when control reaches line 78 or leaves by `break`. -/
structure Scanned (α ρ : Type) where
  state : StreamState α ρ
  data : ExecPrivateBlockData
  brk : Bool

variable {α ρ : Type}

/-- Line 47: `space = buffer->size - have`. -/
def streamSpace (s : StreamState α ρ) : Nat := wsub s.buffer.size s.have_

/-- Lines 54-57: the descriptor `read` handed to the reader, `read.data =
buffer->data + have` and `read.size = space`. -/
def streamRead (s : StreamState α ρ) : JSONParserBuffer :=
  { data := wadd s.buffer.data s.have_, size := streamSpace s }

/-- Lines 54, 63-68: the window handed to the scanner when the reader left `size`
in `read.size`: `p = buffer->data + have`, `pe = p + size`, and `eof = pe` when
`size == 0`, `NULL` otherwise. -/
def streamData (s : StreamState α ρ) (size : Nat) : ExecPrivateBlockData :=
  { p := wadd s.buffer.data s.have_,
    pe := wadd (wadd s.buffer.data s.have_) size,
    eof := if size = 0 then wadd (wadd s.buffer.data s.have_) size else 0 }

/-- Line 58: the reader call of the cycle, `reader(parserUserData, &read, &read.size)`. -/
def streamReaderCall (reader : ReaderFunc ρ) (s : StreamState α ρ) : ReaderResult ρ :=
  reader s.source s.mem (streamRead s)

/-- The value of `read.size` after the reader call, a `size_t`. -/
def streamFilled (reader : ReaderFunc ρ) (s : StreamState α ρ) : Nat :=
  (streamReaderCall reader s).size % WORD

/-- Line 69: the scanner run of the cycle, `exec(parser, &data)`, on the memory the
reader left. -/
def streamExecCall (exec : ExecFunc α) (reader : ReaderFunc ρ) (s : StreamState α ρ) :
    ParserState α × ExecPrivateBlockData :=
  exec s.parser (streamReaderCall reader s).mem (streamData s (streamFilled reader s))

/-- Lines 47-77 of one cycle: the capacity check, the reader call, the window
set-up, the scanner run and the two error checks.  `brk` tells that the cycle
left the loop by `break`. -/
def streamScan (exec : ExecFunc α) (reader : ReaderFunc ρ) (name_error : Int)
    (s : StreamState α ρ) : Scanned α ρ :=
  if streamSpace s = 0 then
    { state := { s with parser := { s.parser with parserError := JSON_PARSER_ERROR.BUFFER },
                        error := true },
      data := { p := 0, pe := 0, eof := 0 }, brk := true }
  else
    let r := streamReaderCall reader s
    let size := streamFilled reader s
    let log1 := s.log ++ [Event.reader (streamRead s) r.ok size]
    if r.ok = false then
      { state := { s with parser := { s.parser with parserError := JSON_PARSER_ERROR.READER },
                          error := true, mem := r.mem, source := r.source, log := log1 },
        data := { p := (streamRead s).data, pe := 0, eof := 0 }, brk := true }
    else
      let data := streamData s size
      let x := streamExecCall exec reader s
      let s2 : StreamState α ρ :=
        { s with parser := x.1, mem := r.mem, source := r.source,
                 done := if size = 0 then true else s.done,
                 log := log1 ++ [Event.exec r.mem data] }
      if x.1.parserFSM.cs = name_error then
        { state := { s2 with parser := { x.1 with parserError := JSON_PARSER_ERROR.PARSER },
                             error := true },
          data := x.2, brk := true }
      else if x.1.parserError.toInt ≠ 0 then
        { state := { s2 with error := true }, data := x.2, brk := true }
      else
        { state := s2, data := x.2, brk := false }

/-- Lines 78-91: the next `have`, and the boundary compaction when a token is
pending (`parserFSM.ts != 0`); `pe` is `data.pe`. -/
def streamCompact (max : Nat) (s : StreamState α ρ) (pe : Nat) : StreamState α ρ :=
  let ts := s.parser.parserFSM.ts
  if ts = 0 then
    { s with have_ := 0 }
  else
    let marker : Nat → Nat := fun index =>
      if index < max then
        (if s.parser.parserMarker index ≠ 0 then
          wadd s.buffer.data (wsub (s.parser.parserMarker index) ts)
        else s.parser.parserMarker index)
      else s.parser.parserMarker index
    let n := wsub pe ts
    { s with
      parser := { s.parser with
        parserMarker := marker,
        parserFSM := { s.parser.parserFSM with
          te := wadd s.buffer.data (wsub s.parser.parserFSM.te ts),
          ts := s.buffer.data } },
      have_ := n,
      mem := memmove s.mem s.buffer.data ts n,
      log := s.log ++ [Event.memmove ts n] }

/-- One cycle of the `while (!done)` loop (lines 47-91); the flag tells that the
cycle ended in `break`. -/
def streamCycle (exec : ExecFunc α) (reader : ReaderFunc ρ) (name_error : Int) (max : Nat)
    (s : StreamState α ρ) : StreamState α ρ × Bool :=
  let x := streamScan exec reader name_error s
  if x.brk then (x.state, true) else (streamCompact max x.state x.data.pe, false)

/-- Result of running the loop for a bounded number of cycles. -/
inductive Outcome (σ : Type) where
  | exited (s : σ)
  | running (s : σ)

/-- State carried by an outcome. -/
def Outcome.state {σ : Type} : Outcome σ → σ
  | .exited s => s
  | .running s => s

/-- Has the loop been left? -/
def Outcome.isExited {σ : Type} : Outcome σ → Bool
  | .exited _ => true
  | .running _ => false

/-- The loop `while (!done) { ... }` of lines 46-92, for at most `fuel` cycles. -/
def streamLoop (exec : ExecFunc α) (reader : ReaderFunc ρ) (name_error : Int) (max : Nat) :
    Nat → StreamState α ρ → Outcome (StreamState α ρ)
  | 0, s => if s.done then Outcome.exited s else Outcome.running s
  | fuel + 1, s =>
    if s.done then Outcome.exited s
    else
      let c := streamCycle exec reader name_error max s
      if c.2 then Outcome.exited c.1 else streamLoop exec reader name_error max fuel c.1

/-- Entry of the macro (lines 44-45): `have = 0; done = false;`. -/
def streamInit (parser : ParserState α) (buffer : JSONParserBuffer) (mem : Nat → Nat)
    (source : ρ) (error : Bool) : StreamState α ρ :=
  { parser := parser, buffer := buffer, mem := mem, source := source, error := error,
    have_ := 0, done := false, log := [] }

/-- The macro `RAGEL_PARSE_STREAM(exec,name,err,max)` (lines 42-93). -/
def RAGEL_PARSE_STREAM (exec : ExecFunc α) (reader : ReaderFunc ρ) (name_error : Int) (max : Nat)
    (fuel : Nat) (parser : ParserState α) (buffer : JSONParserBuffer) (mem : Nat → Nat)
    (source : ρ) (error : Bool) : Outcome (StreamState α ρ) :=
  streamLoop exec reader name_error max fuel (streamInit parser buffer mem source error)

/-! ## `RAGEL_PARSE_STRING` -/

/-- The C library `strlen`: the number of bytes before the first NUL byte at or
after `string`; `limit` bounds the search (the size of the object the string
lives in). -/
def strlen (mem : Nat → Nat) : Nat → Nat → Nat
  | _, 0 => 0
  | string, limit + 1 => if mem string = 0 then 0 else 1 + strlen mem (string + 1) limit

/-- Variables of `RAGEL_PARSE_STRING`: the parser, the caller's `error` flag and
the log. -/
structure StringState (α : Type) where
  parser : ParserState α
  error : Bool
  log : List Event

/-- Lines 98-100: the window of `RAGEL_PARSE_STRING`, `p = string`,
`pe = string + strlen(string)`, `eof = pe`. -/
def stringData (mem : Nat → Nat) (string limit : Nat) : ExecPrivateBlockData :=
  { p := string, pe := wadd string (strlen mem string limit),
    eof := wadd string (strlen mem string limit) }

/-- Line 101: the scanner run of `RAGEL_PARSE_STRING`. -/
def stringExecCall (exec : ExecFunc α) (mem : Nat → Nat) (string limit : Nat)
    (s : StringState α) : ParserState α × ExecPrivateBlockData :=
  exec s.parser mem (stringData mem string limit)

/-- The macro `RAGEL_PARSE_STRING(exec,name,err,max)` (lines 95-108). -/
def RAGEL_PARSE_STRING (exec : ExecFunc α) (name_error first_final : Int)
    (mem : Nat → Nat) (string limit : Nat) (s : StringState α) : StringState α :=
  let data := stringData mem string limit
  let x := stringExecCall exec mem string limit s
  let log1 := s.log ++ [Event.exec mem data]
  if x.1.parserFSM.cs = name_error ∨ x.1.parserFSM.cs < first_final then
    { parser := { x.1 with parserError := JSON_PARSER_ERROR.PARSER }, error := true, log := log1 }
  else if x.1.parserError.toInt ≠ 0 then
    { parser := x.1, error := true, log := log1 }
  else
    { parser := x.1, error := s.error, log := log1 }

/-! ## Conditions on the reader and on the scanner -/

/-- The reader never reports more bytes than it was asked for. -/
def ReaderBounded (reader : ReaderFunc ρ) : Prop :=
  ∀ src mem read, (reader src mem read).ok = true → (reader src mem read).size ≤ read.size

/-- The `n` bytes of memory from address `a` on. -/
def memBytes (mem : Nat → Nat) (a n : Nat) : List Nat :=
  (List.range n).map (fun i => mem (a + i))

/-- The reader hands out the bytes of `pending src` in order: a successful call
reports at most the requested count, stores exactly that many of the pending
bytes from `read.data` on, leaves the rest of the memory as it was, and keeps
the remaining bytes pending. -/
def ReaderDelivers (reader : ReaderFunc ρ) (pending : ρ → List Nat) : Prop :=
  ∀ src mem read, (reader src mem read).ok = true →
    (reader src mem read).size ≤ read.size ∧
    (reader src mem read).size ≤ (pending src).length ∧
    pending (reader src mem read).source = (pending src).drop (reader src mem read).size ∧
    memBytes (reader src mem read).mem read.data (reader src mem read).size =
      (pending src).take (reader src mem read).size ∧
    (∀ a, a < read.data ∨ read.data + (reader src mem read).size ≤ a →
      (reader src mem read).mem a = mem a)

/-- The reader has finitely many chunks left, `chunksLeft src` of them: a
successful call with none left reports zero bytes, any other successful call
uses one up. -/
def ReaderFinite (reader : ReaderFunc ρ) (chunksLeft : ρ → Nat) : Prop :=
  ∀ src mem read, (reader src mem read).ok = true →
    (chunksLeft src = 0 → (reader src mem read).size = 0) ∧
    (chunksLeft src ≠ 0 → chunksLeft (reader src mem read).source + 1 = chunksLeft src)

/-- The scanner leaves the window end as it found it and leaves the token-start
cursor unset or inside `[base, pe]`, on every window `[p, pe]` at or after `base`
entered with the cursor unset or between `base` and `p`. -/
def ScannerKeepsToken (exec : ExecFunc α) (base : Nat) : Prop :=
  ∀ (parser : ParserState α) (mem : Nat → Nat) (d : ExecPrivateBlockData),
    (parser.parserFSM.ts = 0 ∨ (base ≤ parser.parserFSM.ts ∧ parser.parserFSM.ts ≤ d.p)) →
    base ≤ d.p → d.p ≤ d.pe →
    (exec parser mem d).2.pe = d.pe ∧
    ((exec parser mem d).1.parserFSM.ts = 0 ∨
      (base ≤ (exec parser mem d).1.parserFSM.ts ∧ (exec parser mem d).1.parserFSM.ts ≤ d.pe))

/-- The call recorded by an event stays inside the buffer `b`: a reader call is
asked for `read.size` bytes at an offset such that offset plus request is the
capacity, the request is not zero, and a successful call reports at most the
request; a scanner window lies inside the buffer; a compaction moves bytes of
the buffer. -/
def EventInBuffer (b : JSONParserBuffer) : Event → Prop
  | .reader read ok size =>
    b.data ≤ read.data ∧ (read.data - b.data) + read.size = b.size ∧ 0 < read.size ∧
      (ok = true → size ≤ read.size)
  | .exec _ d => b.data ≤ d.p ∧ d.p ≤ d.pe ∧ d.pe ≤ b.data + b.size
  | .memmove src n => b.data ≤ src ∧ src + n ≤ b.data + b.size

/-- Loop invariant at the start of a cycle: `have` is at most the capacity, the
token-start cursor is unset or at the buffer start, and every call made so far
stayed inside the buffer. -/
def LoopInv (b : JSONParserBuffer) (s : StreamState α ρ) : Prop :=
  s.buffer = b ∧ s.have_ ≤ b.size ∧
  (s.parser.parserFSM.ts = 0 ∨ s.parser.parserFSM.ts = b.data) ∧
  ∀ ev, ev ∈ s.log → EventInBuffer b ev

/-- What holds of every state of the loop, also after a `break`. -/
def LoopPost (b : JSONParserBuffer) (s : StreamState α ρ) : Prop :=
  s.buffer = b ∧ s.have_ ≤ b.size ∧ ∀ ev, ev ∈ s.log → EventInBuffer b ev

/-- Window invariant at the start of a cycle, for the input `input` of which the
bytes before position `origin` have left the buffer: the loop invariant holds,
the `have` retained bytes at the buffer start are the input bytes from
`origin` on, and exactly the input after them is still pending in the reader. -/
def WindowInv (b : JSONParserBuffer) (pending : ρ → List Nat) (input : List Nat) (origin : Nat)
    (s : StreamState α ρ) : Prop :=
  LoopInv b s ∧
  origin + s.have_ ≤ input.length ∧
  pending s.source = input.drop (origin + s.have_) ∧
  memBytes s.mem b.data s.have_ = (input.drop origin).take s.have_

/-- The scanner runs recorded in `log` end with a run that has the end-of-input
pointer set, and no earlier run has it set. -/
def EofOnce (log : List Event) : Prop :=
  ∃ pre m d, log.filter Event.isExec = pre ++ [Event.exec m d] ∧ d.eof ≠ 0 ∧
    ∀ e, e ∈ pre → e.isExecEof = false

/-! ## A small scanner and a small reader, to run the macros on concrete inputs -/

/-- Scanning loop of a line scanner over `n` bytes from address `a`: a token is a
line, ended by byte 10.  States: 0 is the error state, 1 is inside a line (not
accepting), 2 is between lines (accepting).  A NUL byte is a grammar violation. -/
def lineScan (mem : Nat → Nat) : Nat → Nat → FiniteStateMachine → FiniteStateMachine
  | 0, _, f => f
  | n + 1, a, f =>
    if f.cs = 0 then f
    else if mem a = 0 then { f with cs := 0 }
    else if mem a = 10 then lineScan mem n (a + 1) { cs := 2, ts := 0, te := a + 1 }
    else lineScan mem n (a + 1) { f with cs := 1, ts := if f.ts = 0 then a else f.ts }

/-- The line scanner as an `exec` function. -/
def lineExec : ExecFunc Unit := fun parser mem d =>
  ({ parser with parserFSM := lineScan mem (d.pe - d.p) d.p parser.parserFSM },
   { d with p := d.pe })

/-- Input source of the small reader: the bytes not yet delivered and the sizes
of the chunks it will hand out. -/
structure SplitSource where
  input : List Nat
  sizes : List Nat
  deriving DecidableEq, Repr

/-- Store `bytes` from address `p` on. -/
def writeBytes (mem : Nat → Nat) (p : Nat) (bytes : List Nat) : Nat → Nat :=
  fun a => if p ≤ a ∧ a - p < bytes.length then bytes.getD (a - p) 0 else mem a

/-- The small reader: each call hands out the next chunk, cut to the requested
size; with no chunk size left it reports zero bytes. -/
def splitReader : ReaderFunc SplitSource := fun src mem read =>
  match src.sizes with
  | [] => { ok := true, size := 0, mem := mem, source := src }
  | n :: rest =>
    { ok := true, size := (src.input.take (min n read.size)).length,
      mem := writeBytes mem read.data (src.input.take (min n read.size)),
      source := { input := src.input.drop (src.input.take (min n read.size)).length,
                  sizes := rest } }

/-- A reader whose every call fails. -/
def failReader : ReaderFunc Unit := fun src mem _ =>
  { ok := false, size := 0, mem := mem, source := src }

/-- A parser with no error, no marker set, automaton state `cs` and unset cursors. -/
def freshParser (cs : Int) : ParserState Unit :=
  { parserError := JSON_PARSER_ERROR.NONE, parserMarker := fun _ => 0,
    parserFSM := { cs := cs, ts := 0, te := 0 }, rest := () }

/-- Memory holding only NUL bytes. -/
def zeroMem : Nat → Nat := fun _ => 0

/-- A scanner whose first container open finds the stack full: it reports
`JSON_PARSER_ERROR_PSTACK` and consumes nothing. -/
def stackExec : ExecFunc Unit := fun parser _ d =>
  ({ parser with parserError := JSON_PARSER_ERROR.PSTACK }, d)

/-- A run into a buffer of capacity zero. -/
def emptyBufferState : StreamState Unit SplitSource :=
  streamInit (freshParser 2) { data := 1000, size := 0 } zeroMem
    { input := [97, 98, 10], sizes := [3] } false

/-- A run whose input holds a NUL byte, which the line scanner rejects. -/
def nulState : StreamState Unit SplitSource :=
  streamInit (freshParser 2) { data := 1000, size := 8 } zeroMem
    { input := [97, 0, 98], sizes := [3] } false

/-- A run whose reader fails, entered with the automaton already in its error state 0. -/
def failState : StreamState Unit Unit :=
  streamInit (freshParser 0) { data := 1000, size := 8 } zeroMem () false

/-- Memory holding the C string `ab` followed by NUL bytes at address 2000: a
line that is not terminated. -/
def unfinishedText : Nat → Nat := writeBytes zeroMem 2000 [97, 98]

/-- Memory holding the C string `ab\n` at address 2000: one complete line. -/
def lineText : Nat → Nat := writeBytes zeroMem 2000 [97, 98, 10]

/-- Entry state of `RAGEL_PARSE_STRING` for the line scanner: accepting start
state 2, no error. -/
def stringStart : StringState Unit :=
  { parser := freshParser 2, error := false, log := [] }

/-- The stream run on the two bytes `ab` delivered in one chunk, then end of
input, into an 8-byte buffer at address 1000; three cycles allowed. -/
def unfinishedStream : Outcome (StreamState Unit SplitSource) :=
  RAGEL_PARSE_STREAM lineExec splitReader 0 4 3 (freshParser 2) { data := 1000, size := 8 }
    zeroMem { input := [97, 98], sizes := [2] } false

/-- The stream run on the five bytes `ab\ncd` delivered as `ab\n` and `cd` and
then a zero-byte read, into an 8-byte buffer at address 1000, for `fuel` cycles. -/
def splitStream (fuel : Nat) : Outcome (StreamState Unit SplitSource) :=
  RAGEL_PARSE_STREAM lineExec splitReader 0 4 fuel (freshParser 2) { data := 1000, size := 8 }
    zeroMem { input := [97, 98, 10, 99, 100], sizes := [3, 2] } false

/-- A run on the five bytes `ab\ncd` delivered in one chunk into an 8-byte buffer
at address 1000, with marker 0 set on the byte `d`. -/
def demoState : StreamState Unit SplitSource :=
  streamInit { freshParser 2 with parserMarker := fun index => if index = 0 then 1004 else 0 }
    { data := 1000, size := 8 } zeroMem { input := [97, 98, 10, 99, 100], sizes := [5] } false

/-! ## `jsontidy.c`: the Writer callbacks of the pretty-printer

`int` is a 32-bit two's complement integer; `depth++` and `depth--` wrap
(`wrapInt`).  `stdout` is the list of lines printed, each with the field width
given to `%*s`; writing to it does not fail, so `fprintf` returns the number of
characters of the line.  A `char *` is an optional string, `NULL` being `none`. -/

/-- Largest value of an `int`. -/
def INT_MAX : Int := 2 ^ 31 - 1

/-- Reduction of an integer to the range of a 32-bit `int`. -/
def wrapInt (x : Int) : Int := (x + 2 ^ 31) % 2 ^ 32 - 2 ^ 31

/-- The enumeration `enum JSON_PARSER_VALUE_TYPE` (`jsonparser.h`, lines 49-58). -/
inductive JSON_PARSER_VALUE_TYPE where
  | NONE
  | STRING
  | NUMBER
  | OBJECT
  | ARRAY
  | TRUE
  | FALSE
  | NULL
  deriving DecidableEq, Repr

/-- The members `type` and `string` of `JSONParserValue` (`jsonparser.h`, lines
75-80), the two that `jsontidy.c` reads. -/
structure JSONParserValue where
  type : JSON_PARSER_VALUE_TYPE
  string : Option String
  deriving DecidableEq, Repr

/-- The table `jsonTypes` (`jsontidy.c`, line 16), indexed by the value type. -/
def jsonTypes : JSON_PARSER_VALUE_TYPE → Option String
  | .NONE => none
  | .STRING => some "string"
  | .NUMBER => some "number"
  | .OBJECT => some "\x7b\x7d"
  | .ARRAY => some "[]"
  | .TRUE => some "true"
  | .FALSE => some "false"
  | .NULL => some "null"

/-- The structure `UserData` (`jsontidy.c`, lines 8-11). -/
structure UserData where
  depth : Int
  indent : Int
  deriving DecidableEq, Repr

/-- One line written to `stdout`: the field width passed for `%*s`, the string
printed in that field, and the value printed after ` = `, if the format has one. -/
structure TidyLine where
  width : Int
  field : Option String
  value : Option (Option String)
  deriving DecidableEq, Repr

/-- What the callbacks of `jsontidy.c` act on: the user data and `stdout`. -/
structure Tidy where
  userData : UserData
  stdout : List TidyLine
  deriving DecidableEq, Repr

/-- Number of characters `%s` prints for a `char *` (`(null)` for `NULL`). -/
def cstrLength : Option String → Int
  | none => 6
  | some str => str.length

/-- Return value of `fprintf` for a line: the padded field, the ` = value`
part if present, and the newline. -/
def TidyLine.chars (l : TidyLine) : Int :=
  max (l.width.natAbs : Int) (cstrLength l.field) +
    (match l.value with
     | none => 0
     | some v => 3 + cstrLength v) + 1

/-- The call `fprintf(stdout, ...)`: the line is appended, the character count
returned. -/
def fprintf (t : Tidy) (l : TidyLine) : Tidy × Int :=
  ({ t with stdout := t.stdout ++ [l] }, l.chars)

/-- The callback `writeArrayElement` (`jsontidy.c`, lines 18-23). -/
def writeArrayElement (t : Tidy) (value : JSONParserValue) : Tidy × Bool :=
  let elementValue := if value.string.isSome then value.string else jsonTypes value.type
  let r := fprintf t
    { width := wrapInt (wrapInt (t.userData.depth + 1) * t.userData.indent),
      field := elementValue, value := none }
  (r.1, decide (r.2 > 0))

/-- The callback `writeObjectMember` (`jsontidy.c`, lines 25-30). -/
def writeObjectMember (t : Tidy) (name : Option String) (value : JSONParserValue) :
    Tidy × Bool :=
  let memberValue := if value.string.isSome then value.string else jsonTypes value.type
  let r := fprintf t
    { width := wrapInt (wrapInt (t.userData.depth + 1) * t.userData.indent),
      field := name, value := some memberValue }
  (r.1, decide (r.2 > 0))

/-- The callback `writeStart` (`jsontidy.c`, lines 32-37). -/
def writeStart (t : Tidy) : Tidy × Bool :=
  ({ t with userData := { t.userData with depth := 0 } }, true)

/-- Lines 42-47 and 54-59: the line that opens a container with bracket
`bracket`, then `depth++`. -/
def tidyOpen (t : Tidy) (name : Option String) (bracket : String) : Tidy × Bool :=
  let r :=
    if name.isSome ∧ t.userData.depth ≠ 0 then
      fprintf t
        { width := wrapInt (wrapInt (t.userData.depth + 1) * t.userData.indent),
          field := name, value := some (some bracket) }
    else
      fprintf t
        { width := wrapInt (t.userData.depth * t.userData.indent),
          field := some bracket, value := none }
  ({ r.1 with userData := { r.1.userData with depth := wrapInt (r.1.userData.depth + 1) } }, true)

/-- The callback `writeStartArray` (`jsontidy.c`, lines 39-49). -/
def writeStartArray (t : Tidy) (name : Option String) : Tidy × Bool :=
  tidyOpen t name "["

/-- The callback `writeStartObject` (`jsontidy.c`, lines 51-61). -/
def writeStartObject (t : Tidy) (name : Option String) : Tidy × Bool :=
  tidyOpen t name "\x7b"

/-- The callback `writeStop` (`jsontidy.c`, lines 63-67): `none` is the failure
of `assert(userDataDepth == 0)`. -/
def writeStop (t : Tidy) : Option (Tidy × Bool) :=
  if t.userData.depth = 0 then some (t, true) else none

/-- Lines 72-73 and 80-81: `depth--`, then the line that closes a container with
bracket `bracket`. -/
def tidyClose (t : Tidy) (bracket : String) : Tidy × Bool :=
  let t1 : Tidy := { t with userData := { t.userData with depth := wrapInt (t.userData.depth - 1) } }
  let r := fprintf t1
    { width := wrapInt (t1.userData.depth * t1.userData.indent),
      field := some bracket, value := none }
  (r.1, true)

/-- The callback `writeStopArray` (`jsontidy.c`, lines 69-75). -/
def writeStopArray (t : Tidy) : Tidy × Bool :=
  tidyClose t "]"

/-- The callback `writeStopObject` (`jsontidy.c`, lines 77-83). -/
def writeStopObject (t : Tidy) : Tidy × Bool :=
  tidyClose t "\x7d"

/-- The events of the Writer protocol, one per callback slot. -/
inductive WriterEvent where
  | writeArrayElement (value : JSONParserValue)
  | writeObjectMember (name : Option String) (value : JSONParserValue)
  | writeStart
  | writeStartArray (name : Option String)
  | writeStartObject (name : Option String)
  | writeStop
  | writeStopArray
  | writeStopObject
  deriving DecidableEq, Repr

/-- The callback of `jsontidy.c` that an event invokes. -/
def tidyCall (t : Tidy) : WriterEvent → Option (Tidy × Bool)
  | .writeArrayElement value => some (writeArrayElement t value)
  | .writeObjectMember name value => some (writeObjectMember t name value)
  | .writeStart => some (writeStart t)
  | .writeStartArray name => some (writeStartArray t name)
  | .writeStartObject name => some (writeStartObject t name)
  | .writeStop => writeStop t
  | .writeStopArray => some (writeStopArray t)
  | .writeStopObject => some (writeStopObject t)

/-- The callbacks of a sequence of events, run in order; `none` when the
assertion of `writeStop` fails. -/
def tidyRun : Tidy → List WriterEvent → Option Tidy
  | t, [] => some t
  | t, e :: rest =>
    match tidyCall t e with
    | none => none
    | some r => tidyRun r.1 rest

/-- The two kinds of container. -/
inductive Container where
  | array
  | object
  deriving DecidableEq, Repr

/-- The open containers after an event, innermost first, given those before it:
a start event opens one, a stop event closes the innermost one, which must be
of its kind; element and member events leave them as they are; document start
and stop are not events of a document body.  The result is `none` when the
event breaks the nesting. -/
def openStep (stack : List Container) : WriterEvent → Option (List Container)
  | .writeArrayElement _ => some stack
  | .writeObjectMember _ _ => some stack
  | .writeStartArray _ => some (Container.array :: stack)
  | .writeStartObject _ => some (Container.object :: stack)
  | .writeStopArray =>
    match stack with
    | Container.array :: rest => some rest
    | _ => none
  | .writeStopObject =>
    match stack with
    | Container.object :: rest => some rest
    | _ => none
  | .writeStart => none
  | .writeStop => none

/-- The open containers after a sequence of body events. -/
def openAfter : List Container → List WriterEvent → Option (List Container)
  | stack, [] => some stack
  | stack, e :: rest =>
    match openStep stack e with
    | none => none
    | some stack2 => openAfter stack2 rest

/-- The largest number of containers open at any point of a sequence of body
events. -/
def maxOpen : List Container → List WriterEvent → Nat
  | stack, [] => stack.length
  | stack, e :: rest =>
    match openStep stack e with
    | none => stack.length
    | some stack2 => max stack.length (maxOpen stack2 rest)

/-- A well-nested body: every stop event closes the innermost open container, of
its kind, and no container is left open. -/
def WellNested (body : List WriterEvent) : Prop := openAfter [] body = some []

/-- The events of `[1, \x7b"a": [true]\x7d]`, without document start and stop. -/
def demoBody : List WriterEvent :=
  [WriterEvent.writeStartArray none,
   WriterEvent.writeArrayElement { type := JSON_PARSER_VALUE_TYPE.NUMBER, string := some "1" },
   WriterEvent.writeStartObject none,
   WriterEvent.writeStartArray (some "a"),
   WriterEvent.writeArrayElement { type := JSON_PARSER_VALUE_TYPE.TRUE, string := none },
   WriterEvent.writeStopArray,
   WriterEvent.writeStopObject,
   WriterEvent.writeStopArray]

/-- User data as `main` sets it up: `depth = 0`, `indent = 8`, nothing printed. -/
def tidyStart : Tidy := { userData := { depth := 0, indent := 8 }, stdout := [] }

end JsonParser

namespace JsonParser

variable {α ρ : Type}

/-! ## Arithmetic of addresses -/

theorem wadd_lt (a b : Nat) : wadd a b < WORD := by
  unfold wadd WORD; omega

theorem wsub_lt (a b : Nat) : wsub a b < WORD := by
  unfold wsub WORD; omega

theorem wadd_of_lt {a b : Nat} (h : a + b < WORD) : wadd a b = a + b := by
  unfold wadd WORD at *; omega

theorem wsub_of_le {a b : Nat} (hb : b ≤ a) (ha : a < WORD) : wsub a b = a - b := by
  unfold wsub WORD at *; omega

theorem toInt_ne_zero (e : JSON_PARSER_ERROR) : e.toInt ≠ 0 ↔ e ≠ JSON_PARSER_ERROR.NONE := by
  cases e <;> simp [JSON_PARSER_ERROR.toInt]

/-! ## Shape of one cycle -/

theorem streamScan_buffer (exec : ExecFunc α) (reader : ReaderFunc ρ) (name_error : Int)
    (s : StreamState α ρ) : (streamScan exec reader name_error s).state.buffer = s.buffer := by
  simp only [streamScan]
  split_ifs <;> rfl

theorem streamCompact_unset {max : Nat} {s : StreamState α ρ} {pe : Nat}
    (h : s.parser.parserFSM.ts = 0) : streamCompact max s pe = { s with have_ := 0 } := by
  simp [streamCompact, h]

theorem streamCompact_have {max : Nat} {s : StreamState α ρ} {pe : Nat}
    (h : s.parser.parserFSM.ts ≠ 0) :
    (streamCompact max s pe).have_ = wsub pe s.parser.parserFSM.ts := by
  simp [streamCompact, h]

theorem streamCompact_mem {max : Nat} {s : StreamState α ρ} {pe : Nat}
    (h : s.parser.parserFSM.ts ≠ 0) :
    (streamCompact max s pe).mem =
      memmove s.mem s.buffer.data s.parser.parserFSM.ts (wsub pe s.parser.parserFSM.ts) := by
  simp [streamCompact, h]

theorem streamCompact_ts {max : Nat} {s : StreamState α ρ} {pe : Nat}
    (h : s.parser.parserFSM.ts ≠ 0) :
    (streamCompact max s pe).parser.parserFSM.ts = s.buffer.data := by
  simp [streamCompact, h]

theorem streamCompact_te {max : Nat} {s : StreamState α ρ} {pe : Nat}
    (h : s.parser.parserFSM.ts ≠ 0) :
    (streamCompact max s pe).parser.parserFSM.te =
      wadd s.buffer.data (wsub s.parser.parserFSM.te s.parser.parserFSM.ts) := by
  simp [streamCompact, h]

theorem streamCompact_marker {max : Nat} {s : StreamState α ρ} {pe : Nat}
    (h : s.parser.parserFSM.ts ≠ 0) (index : Nat) :
    (streamCompact max s pe).parser.parserMarker index =
      if index < max then
        (if s.parser.parserMarker index ≠ 0 then
          wadd s.buffer.data (wsub (s.parser.parserMarker index) s.parser.parserFSM.ts)
        else s.parser.parserMarker index)
      else s.parser.parserMarker index := by
  simp [streamCompact, h]

theorem streamCompact_buffer (max : Nat) (s : StreamState α ρ) (pe : Nat) :
    (streamCompact max s pe).buffer = s.buffer := by
  simp only [streamCompact]
  split_ifs <;> rfl

theorem streamCompact_source (max : Nat) (s : StreamState α ρ) (pe : Nat) :
    (streamCompact max s pe).source = s.source := by
  simp only [streamCompact]
  split_ifs <;> rfl

theorem streamCompact_done (max : Nat) (s : StreamState α ρ) (pe : Nat) :
    (streamCompact max s pe).done = s.done := by
  simp only [streamCompact]
  split_ifs <;> rfl

theorem streamCompact_error (max : Nat) (s : StreamState α ρ) (pe : Nat) :
    (streamCompact max s pe).error = s.error := by
  simp only [streamCompact]
  split_ifs <;> rfl

theorem streamCompact_parserError (max : Nat) (s : StreamState α ρ) (pe : Nat) :
    (streamCompact max s pe).parser.parserError = s.parser.parserError := by
  simp only [streamCompact]
  split_ifs <;> rfl

theorem streamCompact_cs (max : Nat) (s : StreamState α ρ) (pe : Nat) :
    (streamCompact max s pe).parser.parserFSM.cs = s.parser.parserFSM.cs := by
  simp only [streamCompact]
  split_ifs <;> rfl

theorem memmove_apply_dst (mem : Nat → Nat) (dst src n i : Nat) (hi : i < n) :
    memmove mem dst src n (dst + i) = mem (src + i) := by
  simp [memmove, hi]

theorem streamCycle_of_brk {exec : ExecFunc α} {reader : ReaderFunc ρ} {name_error : Int}
    {max : Nat} {s : StreamState α ρ} (h : (streamScan exec reader name_error s).brk = false) :
    streamCycle exec reader name_error max s =
      (streamCompact max (streamScan exec reader name_error s).state
        (streamScan exec reader name_error s).data.pe, false) := by
  simp [streamCycle, h]

/-! ## C1: boundary compaction -/

/-- C1. Boundary compaction: in a cycle that ends without error and leaves a
pending token whose token-start cursor is at buffer offset `off`, with
`off ≤ e` for the window end offset `e`, the next `have` is `e - off`, the
first `have` bytes of the buffer are afterwards the bytes that were at offsets
`[off, e)`, the token-start cursor is at offset 0, the token-end cursor and
every set marker at or after `off` have moved down by `off` (in general every
one of them has moved down by `off` modulo the word size), unset markers stay
unset, and every cursor inside `[off, e)` designates the same byte as before. -/
theorem C1_boundary_compaction (exec : ExecFunc α) (reader : ReaderFunc ρ) (name_error : Int)
    (max : Nat) (s : StreamState α ρ) (off e : Nat)
    (hbrk : (streamScan exec reader name_error s).brk = false)
    (hset : (streamScan exec reader name_error s).state.parser.parserFSM.ts ≠ 0)
    (hts : (streamScan exec reader name_error s).state.parser.parserFSM.ts = s.buffer.data + off)
    (hpe : (streamScan exec reader name_error s).data.pe = s.buffer.data + e)
    (hle : off ≤ e) (hW : s.buffer.data + e < WORD) :
    (streamCycle exec reader name_error max s).2 = false ∧
    (streamCycle exec reader name_error max s).1.have_ = e - off ∧
    (∀ i, i < e - off →
      (streamCycle exec reader name_error max s).1.mem (s.buffer.data + i) =
        (streamScan exec reader name_error s).state.mem (s.buffer.data + off + i)) ∧
    (streamCycle exec reader name_error max s).1.parser.parserFSM.ts = s.buffer.data ∧
    (∀ t, (streamScan exec reader name_error s).state.parser.parserFSM.te = s.buffer.data + t →
      off ≤ t → s.buffer.data + t < WORD →
      (streamCycle exec reader name_error max s).1.parser.parserFSM.te = s.buffer.data + (t - off)) ∧
    ((streamCycle exec reader name_error max s).1.parser.parserFSM.te + off) % WORD =
      (streamScan exec reader name_error s).state.parser.parserFSM.te % WORD ∧
    (∀ index m, index < max →
      (streamScan exec reader name_error s).state.parser.parserMarker index = s.buffer.data + m →
      (streamScan exec reader name_error s).state.parser.parserMarker index ≠ 0 →
      off ≤ m → s.buffer.data + m < WORD →
      (streamCycle exec reader name_error max s).1.parser.parserMarker index =
        s.buffer.data + (m - off)) ∧
    (∀ index, index < max →
      (streamScan exec reader name_error s).state.parser.parserMarker index ≠ 0 →
      ((streamCycle exec reader name_error max s).1.parser.parserMarker index + off) % WORD =
        (streamScan exec reader name_error s).state.parser.parserMarker index % WORD) ∧
    (∀ index, (streamScan exec reader name_error s).state.parser.parserMarker index = 0 →
      (streamCycle exec reader name_error max s).1.parser.parserMarker index = 0) ∧
    (∀ m, off ≤ m → m < e →
      (streamCycle exec reader name_error max s).1.mem (s.buffer.data + (m - off)) =
        (streamScan exec reader name_error s).state.mem (s.buffer.data + m)) := by
  have hbuf := streamScan_buffer exec reader name_error s
  rw [streamCycle_of_brk hbrk]
  generalize (streamScan exec reader name_error s).state = a at *
  generalize (streamScan exec reader name_error s).data.pe = pe at *
  subst hpe
  have hn : wsub (s.buffer.data + e) (s.buffer.data + off) = e - off := by
    rw [wsub_of_le (by omega) hW]; omega
  have hmem : ∀ i, i < e - off →
      (streamCompact max a (s.buffer.data + e)).mem (s.buffer.data + i) =
        a.mem (s.buffer.data + off + i) := by
    intro i hi
    rw [streamCompact_mem hset, hbuf, hts, hn, memmove_apply_dst _ _ _ _ _ hi]
  refine ⟨rfl, ?_, hmem, ?_, ?_, ?_, ?_, ?_, ?_, ?_⟩
  · show (streamCompact max a _).have_ = _
    rw [streamCompact_have hset, hts, hn]
  · show (streamCompact max a _).parser.parserFSM.ts = _
    rw [streamCompact_ts hset, hbuf]
  · intro t ht hot htW
    show (streamCompact max a _).parser.parserFSM.te = _
    rw [streamCompact_te hset, hbuf, hts, ht, wsub_of_le (by omega) htW, wadd_of_lt (by omega)]
    omega
  · show ((streamCompact max a _).parser.parserFSM.te + off) % WORD = _
    rw [streamCompact_te hset, hbuf, hts]
    generalize a.parser.parserFSM.te = te
    unfold wadd wsub WORD at *
    omega
  · intro index m hi hm hne hom hmW
    show (streamCompact max a _).parser.parserMarker index = _
    rw [streamCompact_marker hset, if_pos hi, if_pos hne, hbuf, hts, hm,
      wsub_of_le (by omega) hmW, wadd_of_lt (by omega)]
    omega
  · intro index hi hne
    show ((streamCompact max a _).parser.parserMarker index + off) % WORD = _
    rw [streamCompact_marker hset, if_pos hi, if_pos hne, hbuf, hts]
    generalize a.parser.parserMarker index = mk
    unfold wadd wsub WORD at *
    omega
  · intro index h0
    show (streamCompact max a _).parser.parserMarker index = _
    rw [streamCompact_marker hset]
    split_ifs <;> simp_all
  · intro m hom hme
    show (streamCompact max a _).mem _ = _
    rw [hmem (m - off) (by omega)]
    congr 1
    omega

/-- Witness of C1: the line scanner on `ab\ncd` leaves the token `cd` pending at
offset 3 of a window ending at offset 5. -/
theorem C1_boundary_compaction_witness :
    (streamScan lineExec splitReader 0 demoState).state.parser.parserFSM.ts = 1000 + 3 ∧
    (streamCycle lineExec splitReader 0 4 demoState).1.have_ = 5 - 3 ∧
    (streamCycle lineExec splitReader 0 4 demoState).1.parser.parserFSM.ts = 1000 ∧
    (streamCycle lineExec splitReader 0 4 demoState).1.parser.parserMarker 0 = 1000 + (4 - 3) :=
  ⟨by decide,
   (C1_boundary_compaction lineExec splitReader 0 4 demoState 3 5 (by decide) (by decide)
      (by decide) (by decide) (by decide) (by decide)).2.1,
   (C1_boundary_compaction lineExec splitReader 0 4 demoState 3 5 (by decide) (by decide)
      (by decide) (by decide) (by decide) (by decide)).2.2.2.1,
   (C1_boundary_compaction lineExec splitReader 0 4 demoState 3 5 (by decide) (by decide)
      (by decide) (by decide) (by decide) (by decide)).2.2.2.2.2.2.1 0 4 (by decide) (by decide)
      (by decide) (by decide) (by decide)⟩

/-! ## Shape of the scan phase -/

theorem streamLoop_succ (exec : ExecFunc α) (reader : ReaderFunc ρ) (name_error : Int)
    (max fuel : Nat) (s : StreamState α ρ) (hdone : s.done = false) :
    streamLoop exec reader name_error max (fuel + 1) s =
      if (streamCycle exec reader name_error max s).2 then
        Outcome.exited (streamCycle exec reader name_error max s).1
      else streamLoop exec reader name_error max fuel (streamCycle exec reader name_error max s).1 := by
  simp [streamLoop, hdone]

theorem streamLoop_done (exec : ExecFunc α) (reader : ReaderFunc ρ) (name_error : Int)
    (max fuel : Nat) (s : StreamState α ρ) (hdone : s.done = true) :
    streamLoop exec reader name_error max fuel s = Outcome.exited s := by
  cases fuel <;> simp [streamLoop, hdone]

theorem streamScan_full (exec : ExecFunc α) (reader : ReaderFunc ρ) (name_error : Int)
    (s : StreamState α ρ) (hspace : streamSpace s = 0) :
    streamScan exec reader name_error s =
      { state := { s with parser := { s.parser with parserError := JSON_PARSER_ERROR.BUFFER },
                          error := true },
        data := { p := 0, pe := 0, eof := 0 }, brk := true } := by
  simp [streamScan, hspace]

theorem streamScan_fail (exec : ExecFunc α) (reader : ReaderFunc ρ) (name_error : Int)
    (s : StreamState α ρ) (hspace : streamSpace s ≠ 0)
    (hfail : (streamReaderCall reader s).ok = false) :
    streamScan exec reader name_error s =
      { state := { s with parser := { s.parser with parserError := JSON_PARSER_ERROR.READER },
                          error := true, mem := (streamReaderCall reader s).mem,
                          source := (streamReaderCall reader s).source,
                          log := s.log ++ [Event.reader (streamRead s) false (streamFilled reader s)] },
        data := { p := (streamRead s).data, pe := 0, eof := 0 }, brk := true } := by
  simp [streamScan, hspace, hfail]

/-- State of the cycle right after the scanner run (line 69). -/
theorem streamScan_ok (exec : ExecFunc α) (reader : ReaderFunc ρ) (name_error : Int)
    (s : StreamState α ρ) (hspace : streamSpace s ≠ 0)
    (hok : (streamReaderCall reader s).ok = true) :
    streamScan exec reader name_error s =
      if (streamExecCall exec reader s).1.parserFSM.cs = name_error then
        { state := { s with
            parser := { (streamExecCall exec reader s).1 with
              parserError := JSON_PARSER_ERROR.PARSER },
            error := true, mem := (streamReaderCall reader s).mem,
            source := (streamReaderCall reader s).source,
            done := if streamFilled reader s = 0 then true else s.done,
            log := s.log ++ [Event.reader (streamRead s) true (streamFilled reader s),
              Event.exec (streamReaderCall reader s).mem (streamData s (streamFilled reader s))] },
          data := (streamExecCall exec reader s).2, brk := true }
      else if (streamExecCall exec reader s).1.parserError ≠ JSON_PARSER_ERROR.NONE then
        { state := { s with
            parser := (streamExecCall exec reader s).1,
            error := true, mem := (streamReaderCall reader s).mem,
            source := (streamReaderCall reader s).source,
            done := if streamFilled reader s = 0 then true else s.done,
            log := s.log ++ [Event.reader (streamRead s) true (streamFilled reader s),
              Event.exec (streamReaderCall reader s).mem (streamData s (streamFilled reader s))] },
          data := (streamExecCall exec reader s).2, brk := true }
      else
        { state := { s with
            parser := (streamExecCall exec reader s).1,
            mem := (streamReaderCall reader s).mem,
            source := (streamReaderCall reader s).source,
            done := if streamFilled reader s = 0 then true else s.done,
            log := s.log ++ [Event.reader (streamRead s) true (streamFilled reader s),
              Event.exec (streamReaderCall reader s).mem (streamData s (streamFilled reader s))] },
          data := (streamExecCall exec reader s).2, brk := false } := by
  simp only [streamScan, hspace, hok, if_false, toInt_ne_zero, List.append_assoc,
    List.singleton_append, Bool.true_eq_false]

/-! ## C3: a full buffer -/

/-- C3. A cycle that starts with `capacity - have = 0` fails with error code
Buffer: the loop is left with `parserError = BUFFER` and `error = true`, and
nothing else has changed, so neither the reader nor the scanner was called
(the log is the same), the memory and the buffer descriptor are the same, and
the code is not Parser.  Two ways to get there: a buffer of capacity zero on
the first cycle, and a pending token that starts at offset 0 and reaches the
last byte of the buffer. -/
theorem C3_full_buffer_error (exec : ExecFunc α) (reader : ReaderFunc ρ) (name_error : Int)
    (max fuel : Nat) (s : StreamState α ρ) (hdone : s.done = false)
    (hspace : streamSpace s = 0) :
    streamLoop exec reader name_error max (fuel + 1) s =
      Outcome.exited { s with
        parser := { s.parser with parserError := JSON_PARSER_ERROR.BUFFER }, error := true } ∧
    (streamLoop exec reader name_error max (fuel + 1) s).state.parser.parserError =
      JSON_PARSER_ERROR.BUFFER ∧
    (streamLoop exec reader name_error max (fuel + 1) s).state.parser.parserError ≠
      JSON_PARSER_ERROR.PARSER ∧
    (streamLoop exec reader name_error max (fuel + 1) s).state.error = true ∧
    (streamLoop exec reader name_error max (fuel + 1) s).state.log = s.log ∧
    (streamLoop exec reader name_error max (fuel + 1) s).state.mem = s.mem ∧
    (streamLoop exec reader name_error max (fuel + 1) s).state.buffer = s.buffer ∧
    (∀ (parser : ParserState α) (buffer : JSONParserBuffer) (mem : Nat → Nat) (source : ρ)
      (error : Bool), buffer.size = 0 →
      streamSpace (streamInit parser buffer mem source error) = 0) ∧
    (∀ t : StreamState α ρ, (streamScan exec reader name_error t).brk = false →
      (streamScan exec reader name_error t).state.parser.parserFSM.ts = t.buffer.data →
      t.buffer.data ≠ 0 →
      (streamScan exec reader name_error t).data.pe = t.buffer.data + t.buffer.size →
      t.buffer.data + t.buffer.size < WORD →
      streamSpace (streamCycle exec reader name_error max t).1 = 0) := by
  have hloop : streamLoop exec reader name_error max (fuel + 1) s =
      Outcome.exited { s with
        parser := { s.parser with parserError := JSON_PARSER_ERROR.BUFFER }, error := true } := by
    rw [streamLoop_succ _ _ _ _ _ _ hdone]
    simp [streamCycle, streamScan_full exec reader name_error s hspace]
  refine ⟨hloop, ?_, ?_, ?_, ?_, ?_, ?_, ?_, ?_⟩
  · rw [hloop]; rfl
  · rw [hloop]; simp [Outcome.state]
  · rw [hloop]; rfl
  · rw [hloop]; rfl
  · rw [hloop]; rfl
  · rw [hloop]; rfl
  · intro parser buffer mem source error h0
    simp [streamSpace, streamInit, h0, wsub, WORD]
  · intro t hbrk hts hne hpe hW
    have hbuf := streamScan_buffer exec reader name_error t
    rw [streamCycle_of_brk hbrk]
    have hset : (streamScan exec reader name_error t).state.parser.parserFSM.ts ≠ 0 := by
      rw [hts]; exact hne
    unfold streamSpace
    rw [streamCompact_buffer, streamCompact_have hset, hbuf, hpe, hts]
    unfold wsub WORD at *
    omega

/-- Witness of C3: a buffer of capacity zero fails on the first cycle. -/
theorem C3_full_buffer_error_witness :
    (streamLoop lineExec splitReader 0 4 1 emptyBufferState).state.parser.parserError =
      JSON_PARSER_ERROR.BUFFER ∧
    (streamLoop lineExec splitReader 0 4 1 emptyBufferState).state.log = emptyBufferState.log :=
  ⟨(C3_full_buffer_error lineExec splitReader 0 4 0 emptyBufferState (by decide) (by decide)).2.1,
   (C3_full_buffer_error lineExec splitReader 0 4 0 emptyBufferState (by decide)
      (by decide)).2.2.2.2.1⟩

/-! ## C6: errors found after a scanner run -/

/-- C6. After a scanner run of a cycle: if the automaton is in its error state,
the loop is left with `parserError = PARSER` (whatever code the run had set)
and `error = true`; otherwise, if the run left a code other than None, the
loop is left with that very code and `error = true`.  In both cases the state
is the one right after the scanner run: no compaction (same `have`, the memory
and the cursors as the reader and the scanner left them), and the log ends with
this scanner run. -/
theorem C6_scanner_error_halts (exec : ExecFunc α) (reader : ReaderFunc ρ) (name_error : Int)
    (max fuel : Nat) (s : StreamState α ρ) (hdone : s.done = false)
    (hspace : streamSpace s ≠ 0) (hok : (streamReaderCall reader s).ok = true) :
    ((streamExecCall exec reader s).1.parserFSM.cs = name_error →
      streamLoop exec reader name_error max (fuel + 1) s =
        Outcome.exited { s with
          parser := { (streamExecCall exec reader s).1 with
            parserError := JSON_PARSER_ERROR.PARSER },
          error := true, mem := (streamReaderCall reader s).mem,
          source := (streamReaderCall reader s).source,
          done := if streamFilled reader s = 0 then true else s.done,
          log := s.log ++ [Event.reader (streamRead s) true (streamFilled reader s),
            Event.exec (streamReaderCall reader s).mem (streamData s (streamFilled reader s))] }) ∧
    ((streamExecCall exec reader s).1.parserFSM.cs ≠ name_error →
      (streamExecCall exec reader s).1.parserError ≠ JSON_PARSER_ERROR.NONE →
      streamLoop exec reader name_error max (fuel + 1) s =
        Outcome.exited { s with
          parser := (streamExecCall exec reader s).1,
          error := true, mem := (streamReaderCall reader s).mem,
          source := (streamReaderCall reader s).source,
          done := if streamFilled reader s = 0 then true else s.done,
          log := s.log ++ [Event.reader (streamRead s) true (streamFilled reader s),
            Event.exec (streamReaderCall reader s).mem (streamData s (streamFilled reader s))] }) := by
  constructor
  · intro hcs
    rw [streamLoop_succ _ _ _ _ _ _ hdone]
    simp [streamCycle, streamScan_ok exec reader name_error s hspace hok, hcs]
  · intro hcs herr
    rw [streamLoop_succ _ _ _ _ _ _ hdone]
    simp [streamCycle, streamScan_ok exec reader name_error s hspace hok, hcs, herr]

/-- Witness of C6: the line scanner meets a NUL byte and lands in its error state
0; the stack scanner reports `PSTACK` in the accepting state 2. -/
theorem C6_scanner_error_halts_witness :
    (streamExecCall lineExec splitReader nulState).1.parserFSM.cs = 0 ∧
    (streamLoop lineExec splitReader 0 4 1 nulState).state.parser.parserError =
      JSON_PARSER_ERROR.PARSER ∧
    (streamExecCall stackExec splitReader nulState).1.parserError = JSON_PARSER_ERROR.PSTACK ∧
    (streamLoop stackExec splitReader 0 4 1 nulState).state.parser.parserError =
      JSON_PARSER_ERROR.PSTACK :=
  ⟨by decide,
   by rw [(C6_scanner_error_halts lineExec splitReader 0 4 0 nulState (by decide) (by decide)
      (by decide)).1 (by decide)]; rfl,
   by decide,
   by rw [(C6_scanner_error_halts stackExec splitReader 0 4 0 nulState (by decide) (by decide)
      (by decide)).2 (by decide) (by decide)]; rfl⟩

/-! ## C8: reader failure -/

/-- C8. When the reader reports failure, the loop is left with
`parserError = READER` and `error = true`, whatever automaton state and cursors
the parser holds: the parser is otherwise untouched, the log gains the reader
call only (no scanner run, no compaction), `have` is unchanged and the memory
is as the reader left it. -/
theorem C8_reader_failure (exec : ExecFunc α) (reader : ReaderFunc ρ) (name_error : Int)
    (max fuel : Nat) (s : StreamState α ρ) (hdone : s.done = false)
    (hspace : streamSpace s ≠ 0) (hfail : (streamReaderCall reader s).ok = false) :
    streamLoop exec reader name_error max (fuel + 1) s =
      Outcome.exited { s with
        parser := { s.parser with parserError := JSON_PARSER_ERROR.READER },
        error := true, mem := (streamReaderCall reader s).mem,
        source := (streamReaderCall reader s).source,
        log := s.log ++ [Event.reader (streamRead s) false (streamFilled reader s)] } ∧
    (streamLoop exec reader name_error max (fuel + 1) s).state.parser.parserError =
      JSON_PARSER_ERROR.READER ∧
    (streamLoop exec reader name_error max (fuel + 1) s).state.error = true ∧
    (streamLoop exec reader name_error max (fuel + 1) s).state.parser.parserFSM =
      s.parser.parserFSM ∧
    (streamLoop exec reader name_error max (fuel + 1) s).state.parser.parserMarker =
      s.parser.parserMarker ∧
    (streamLoop exec reader name_error max (fuel + 1) s).state.have_ = s.have_ ∧
    (streamLoop exec reader name_error max (fuel + 1) s).state.mem =
      (streamReaderCall reader s).mem ∧
    (streamLoop exec reader name_error max (fuel + 1) s).state.log.filter Event.isExec =
      s.log.filter Event.isExec ∧
    (streamLoop exec reader name_error max (fuel + 1) s).state.log.filter Event.isMemmove =
      s.log.filter Event.isMemmove := by
  have hloop : streamLoop exec reader name_error max (fuel + 1) s =
      Outcome.exited { s with
        parser := { s.parser with parserError := JSON_PARSER_ERROR.READER },
        error := true, mem := (streamReaderCall reader s).mem,
        source := (streamReaderCall reader s).source,
        log := s.log ++ [Event.reader (streamRead s) false (streamFilled reader s)] } := by
    rw [streamLoop_succ _ _ _ _ _ _ hdone]
    simp [streamCycle, streamScan_fail exec reader name_error s hspace hfail]
  refine ⟨hloop, ?_, ?_, ?_, ?_, ?_, ?_, ?_, ?_⟩ <;> rw [hloop] <;>
    simp [Outcome.state, Event.isExec, Event.isMemmove]

/-- Witness of C8: the reader fails while the automaton sits in its error state 0;
the code reported is Reader. -/
theorem C8_reader_failure_witness :
    failState.parser.parserFSM.cs = 0 ∧
    (streamLoop lineExec failReader 0 4 1 failState).state.parser.parserError =
      JSON_PARSER_ERROR.READER :=
  ⟨by decide,
   (C8_reader_failure lineExec failReader 0 4 0 failState (by decide) (by decide)
      (by decide)).2.1⟩

/-! ## C4: `RAGEL_PARSE_STRING` -/

theorem strlen_nonzero (mem : Nat → Nat) (limit string i : Nat)
    (hi : i < strlen mem string limit) : mem (string + i) ≠ 0 := by
  induction limit generalizing string i with
  | zero => simp [strlen] at hi
  | succ n ih =>
    unfold strlen at hi
    split_ifs at hi with h0
    · omega
    · cases i with
      | zero => simpa using h0
      | succ j =>
        have := ih (string + 1) j (by omega)
        rwa [show string + 1 + j = string + (j + 1) by omega] at this

theorem strlen_terminator (mem : Nat → Nat) (limit string : Nat)
    (h : strlen mem string limit < limit) : mem (string + strlen mem string limit) = 0 := by
  induction limit generalizing string with
  | zero => omega
  | succ n ih =>
    unfold strlen at h ⊢
    split_ifs at h ⊢ with h0
    · simpa using h0
    · have := ih (string + 1) (by omega)
      rwa [show string + 1 + strlen mem (string + 1) n =
        string + (1 + strlen mem (string + 1) n) by omega] at this

/-- C4. `RAGEL_PARSE_STRING` runs the scanner exactly once, on the window that
starts at the first byte of the text, ends `strlen` bytes later (the bytes
before the first NUL) and has the end-of-input pointer set to the window end.
If the final automaton state is the error state or lies below `first_final`,
the macro fails with error code Parser.  Otherwise it fails if and only if the
scanner run left a code other than None, and the parser, with that code, is
exactly as the scanner left it. -/
theorem C4_parse_string (exec : ExecFunc α) (name_error first_final : Int) (mem : Nat → Nat)
    (string limit : Nat) (s : StringState α) (herr : s.error = false) (hstr : 0 < string)
    (hW : string + strlen mem string limit < WORD) :
    (RAGEL_PARSE_STRING exec name_error first_final mem string limit s).log =
      s.log ++ [Event.exec mem (stringData mem string limit)] ∧
    (stringData mem string limit).p = string ∧
    (stringData mem string limit).pe = string + strlen mem string limit ∧
    (stringData mem string limit).eof = (stringData mem string limit).pe ∧
    (stringData mem string limit).eof ≠ 0 ∧
    (∀ i, i < strlen mem string limit → mem (string + i) ≠ 0) ∧
    (strlen mem string limit < limit → mem (string + strlen mem string limit) = 0) ∧
    ((stringExecCall exec mem string limit s).1.parserFSM.cs = name_error ∨
        (stringExecCall exec mem string limit s).1.parserFSM.cs < first_final →
      (RAGEL_PARSE_STRING exec name_error first_final mem string limit s).error = true ∧
      (RAGEL_PARSE_STRING exec name_error first_final mem string limit s).parser.parserError =
        JSON_PARSER_ERROR.PARSER) ∧
    (¬ ((stringExecCall exec mem string limit s).1.parserFSM.cs = name_error ∨
        (stringExecCall exec mem string limit s).1.parserFSM.cs < first_final) →
      ((RAGEL_PARSE_STRING exec name_error first_final mem string limit s).error = true ↔
        (stringExecCall exec mem string limit s).1.parserError ≠ JSON_PARSER_ERROR.NONE) ∧
      (RAGEL_PARSE_STRING exec name_error first_final mem string limit s).parser =
        (stringExecCall exec mem string limit s).1) := by
  have hpe : wadd string (strlen mem string limit) = string + strlen mem string limit :=
    wadd_of_lt hW
  refine ⟨?_, rfl, hpe, rfl, ?_, ?_, ?_, ?_, ?_⟩
  · simp only [RAGEL_PARSE_STRING]
    split_ifs <;> rfl
  · show wadd string (strlen mem string limit) ≠ 0
    rw [hpe]; omega
  · exact fun i hi => strlen_nonzero mem limit string i hi
  · exact strlen_terminator mem limit string
  · intro h
    simp only [RAGEL_PARSE_STRING, h, if_true, and_self]
  · intro h
    simp only [RAGEL_PARSE_STRING, h, if_false, toInt_ne_zero]
    split_ifs with h1
    · exact ⟨⟨fun _ => h1, fun _ => rfl⟩, rfl⟩
    · refine ⟨⟨fun h2 => ?_, fun h2 => absurd h2 h1⟩, rfl⟩
      rw [herr] at h2
      exact absurd h2 (by decide)

/-- Witness of C4: the line scanner on the complete line `ab\n` ends in the
accepting state 2 and the macro reports no error. -/
theorem C4_parse_string_witness :
    strlen lineText 2000 16 = 3 ∧
    (stringExecCall lineExec lineText 2000 16 stringStart).1.parserFSM.cs = 2 ∧
    ((RAGEL_PARSE_STRING lineExec 0 2 lineText 2000 16 stringStart).error = true ↔
      (stringExecCall lineExec lineText 2000 16 stringStart).1.parserError ≠
        JSON_PARSER_ERROR.NONE) :=
  ⟨by decide, by decide,
   ((C4_parse_string lineExec 0 2 lineText 2000 16 stringStart (by decide) (by decide)
      (by decide)).2.2.2.2.2.2.2.2 (by decide)).1⟩

/-! ## C5: end of input in a state that is not accepting -/

/-- C5 (the code at the failing input). The line scanner, error state 0 and
`first_final = 2`, on the two bytes `ab` of a line that is never terminated:
`RAGEL_PARSE_STREAM` ends after the end-of-input cycle in state 1, which is
neither the error state nor accepting, with `error = false` and code None;
`RAGEL_PARSE_STRING` on the same text ends in the same state 1 and fails with
code Parser. -/
theorem C5_stream_accepts_unfinished_input :
    unfinishedStream.isExited = true ∧
    unfinishedStream.state.done = true ∧
    (unfinishedStream.state.log.filter Event.isExecEof).length = 1 ∧
    unfinishedStream.state.parser.parserFSM.cs = 1 ∧
    unfinishedStream.state.error = false ∧
    unfinishedStream.state.parser.parserError = JSON_PARSER_ERROR.NONE ∧
    (RAGEL_PARSE_STRING lineExec 0 2 unfinishedText 2000 16 stringStart).parser.parserFSM.cs = 1 ∧
    (RAGEL_PARSE_STRING lineExec 0 2 unfinishedText 2000 16 stringStart).error = true ∧
    (RAGEL_PARSE_STRING lineExec 0 2 unfinishedText 2000 16 stringStart).parser.parserError =
      JSON_PARSER_ERROR.PARSER := by
  decide

/-! ## C9: the loop invariant -/

theorem streamSpace_of_le {s : StreamState α ρ} (h : s.have_ ≤ s.buffer.size)
    (hW : s.buffer.size < WORD) : streamSpace s = s.buffer.size - s.have_ := by
  unfold streamSpace
  exact wsub_of_le h hW

theorem streamFilled_of_bounded {reader : ReaderFunc ρ} (hreader : ReaderBounded reader)
    {s : StreamState α ρ} (hok : (streamReaderCall reader s).ok = true) :
    streamFilled reader s = (streamReaderCall reader s).size ∧
      streamFilled reader s ≤ streamSpace s := by
  have h1 : (streamReaderCall reader s).size ≤ streamSpace s := hreader _ _ _ hok
  have h2 : streamSpace s < WORD := wsub_lt _ _
  unfold streamFilled
  rw [Nat.mod_eq_of_lt (by omega)]
  exact ⟨rfl, h1⟩

/-- One cycle keeps the loop invariant: the state at line 78 or at the `break`
satisfies `LoopPost`, and the state after the compaction satisfies `LoopInv`. -/
theorem streamCycle_loopInv (exec : ExecFunc α) (reader : ReaderFunc ρ) (name_error : Int)
    (max : Nat) (b : JSONParserBuffer) (hreader : ReaderBounded reader)
    (hexec : ScannerKeepsToken exec b.data) (hW : b.data + b.size < WORD)
    (s : StreamState α ρ) (hinv : LoopInv b s) :
    LoopPost b (streamScan exec reader name_error s).state ∧
    ((streamScan exec reader name_error s).brk = false →
      LoopInv b (streamCompact max (streamScan exec reader name_error s).state
        (streamScan exec reader name_error s).data.pe)) := by
  obtain ⟨hb, hhave, hts, hlog⟩ := hinv
  have hsp : streamSpace s = b.size - s.have_ := by
    rw [streamSpace_of_le (by rw [hb]; exact hhave) (by rw [hb]; omega), hb]
  by_cases hspace : streamSpace s = 0
  · rw [streamScan_full exec reader name_error s hspace]
    exact ⟨⟨hb, hhave, hlog⟩, fun h => absurd h (by simp)⟩
  have hp : wadd s.buffer.data s.have_ = b.data + s.have_ := by
    rw [hb]; exact wadd_of_lt (by omega)
  have hread : EventInBuffer b (Event.reader (streamRead s) (streamReaderCall reader s).ok
      (streamFilled reader s)) := by
    refine ⟨?_, ?_, ?_, ?_⟩
    · show b.data ≤ wadd s.buffer.data s.have_
      omega
    · show wadd s.buffer.data s.have_ - b.data + streamSpace s = b.size
      omega
    · show 0 < streamSpace s
      omega
    · intro hok
      exact (streamFilled_of_bounded hreader hok).2
  cases hok : (streamReaderCall reader s).ok with
  | false =>
    rw [streamScan_fail exec reader name_error s hspace hok]
    refine ⟨⟨hb, hhave, ?_⟩, fun h => absurd h (by simp)⟩
    intro ev hev
    rcases List.mem_append.1 hev with h | h
    · exact hlog ev h
    · rw [List.mem_singleton] at h
      rw [h, ← hok]
      exact hread
  | true =>
    have hfill := (streamFilled_of_bounded hreader hok).2
    have hdp : (streamData s (streamFilled reader s)).p = b.data + s.have_ := hp
    have hdpe : (streamData s (streamFilled reader s)).pe =
        b.data + s.have_ + streamFilled reader s := by
      show wadd (wadd s.buffer.data s.have_) (streamFilled reader s) = _
      rw [hp]; exact wadd_of_lt (by omega)
    have hwin : EventInBuffer b (Event.exec (streamReaderCall reader s).mem
        (streamData s (streamFilled reader s))) := by
      show b.data ≤ (streamData s _).p ∧ (streamData s _).p ≤ (streamData s _).pe ∧
        (streamData s _).pe ≤ b.data + b.size
      rw [hdp, hdpe]; omega
    have hlog2 : ∀ ev, ev ∈ s.log ++ [Event.reader (streamRead s) true (streamFilled reader s),
        Event.exec (streamReaderCall reader s).mem (streamData s (streamFilled reader s))] →
        EventInBuffer b ev := by
      intro ev hev
      rcases List.mem_append.1 hev with h | h
      · exact hlog ev h
      · simp only [List.mem_cons, List.mem_singleton, List.not_mem_nil, or_false] at h
        rcases h with h | h
        · rw [h, ← hok]; exact hread
        · rw [h]; exact hwin
    have hscan := hexec s.parser (streamReaderCall reader s).mem
      (streamData s (streamFilled reader s))
      (by rcases hts with h | h
          · exact Or.inl h
          · right; rw [h, hdp]; omega)
      (by rw [hdp]; omega) (by rw [hdp, hdpe]; omega)
    rw [hdpe] at hscan
    obtain ⟨hpe', hts'⟩ := hscan
    have hx : streamExecCall exec reader s = exec s.parser (streamReaderCall reader s).mem
      (streamData s (streamFilled reader s)) := rfl
    rw [← hx] at hpe' hts'
    rw [streamScan_ok exec reader name_error s hspace hok]
    by_cases h1 : (streamExecCall exec reader s).1.parserFSM.cs = name_error
    · rw [if_pos h1]
      exact ⟨⟨hb, hhave, hlog2⟩, fun h => absurd h (by simp)⟩
    rw [if_neg h1]
    by_cases h2 : (streamExecCall exec reader s).1.parserError ≠ JSON_PARSER_ERROR.NONE
    · rw [if_pos h2]
      exact ⟨⟨hb, hhave, hlog2⟩, fun h => absurd h (by simp)⟩
    rw [if_neg h2]
    · refine ⟨⟨hb, hhave, hlog2⟩, fun _ => ?_⟩
      simp only
      by_cases h0 : (streamExecCall exec reader s).1.parserFSM.ts = 0
      · rw [streamCompact_unset (by exact h0)]
        exact ⟨hb, Nat.zero_le _, Or.inl h0, hlog2⟩
      · have hrange := hts'.resolve_left h0
        refine ⟨?_, ?_, ?_, ?_⟩
        · rw [streamCompact_buffer]; exact hb
        · rw [streamCompact_have (by exact h0)]
          show wsub (streamExecCall exec reader s).2.pe (streamExecCall exec reader s).1.parserFSM.ts
            ≤ b.size
          rw [hpe', wsub_of_le hrange.2 (by omega)]
          omega
        · right
          rw [streamCompact_ts (by exact h0)]
          exact congrArg JSONParserBuffer.data hb
        · intro ev hev
          simp only [streamCompact, if_neg (show ¬ (streamExecCall exec reader s).1.parserFSM.ts = 0
            from h0)] at hev
          rcases List.mem_append.1 hev with h | h
          · exact hlog2 ev h
          · rw [List.mem_singleton] at h
            rw [h, hpe', wsub_of_le hrange.2 (by omega)]
            show b.data ≤ _ ∧ _ ≤ b.data + b.size
            omega

theorem LoopInv.post {b : JSONParserBuffer} {s : StreamState α ρ} (h : LoopInv b s) :
    LoopPost b s :=
  ⟨h.1, h.2.1, h.2.2.2⟩

theorem streamLoop_loopPost (exec : ExecFunc α) (reader : ReaderFunc ρ) (name_error : Int)
    (max : Nat) (b : JSONParserBuffer) (hreader : ReaderBounded reader)
    (hexec : ScannerKeepsToken exec b.data) (hW : b.data + b.size < WORD) (fuel : Nat)
    (s : StreamState α ρ) (hinv : LoopInv b s) :
    LoopPost b (streamLoop exec reader name_error max fuel s).state ∧
    ((streamLoop exec reader name_error max fuel s).isExited = false →
      LoopInv b (streamLoop exec reader name_error max fuel s).state) := by
  induction fuel generalizing s with
  | zero =>
    unfold streamLoop
    split_ifs
    · exact ⟨hinv.post, fun h => absurd h (by simp [Outcome.isExited])⟩
    · exact ⟨hinv.post, fun _ => hinv⟩
  | succ n ih =>
    cases hdone : s.done with
    | true =>
      rw [streamLoop_done _ _ _ _ _ _ hdone]
      exact ⟨hinv.post, fun h => absurd h (by simp [Outcome.isExited])⟩
    | false =>
      rw [streamLoop_succ _ _ _ _ _ _ hdone]
      have hc := streamCycle_loopInv exec reader name_error max b hreader hexec hW s hinv
      cases hbrk : (streamScan exec reader name_error s).brk with
      | true =>
        simp only [streamCycle, hbrk, if_true]
        exact ⟨hc.1, fun h => absurd h (by simp [Outcome.isExited])⟩
      | false =>
        simp only [streamCycle, hbrk, if_false, Bool.false_eq_true]
        exact ih _ (hc.2 hbrk)

/-- C9. Loop invariant of `RAGEL_PARSE_STREAM`: when the reader never reports
more bytes than it was asked for and the scanner leaves the token-start cursor
unset or inside `[buffer start, window end]`, then, however many cycles have
run, `have` is at most the capacity; every reader call made was asked for
`read.size` bytes at an address `read.data` at or after the buffer start with
offset plus request equal to the capacity (so the request is exactly capacity
minus `have`, and the subtraction did not wrap); and every scanner window lies
between the buffer start and the buffer end. -/
theorem C9_loop_invariant (exec : ExecFunc α) (reader : ReaderFunc ρ) (name_error : Int)
    (max fuel : Nat) (parser : ParserState α) (buffer : JSONParserBuffer) (mem : Nat → Nat)
    (source : ρ) (error : Bool)
    (hreader : ReaderBounded reader) (hexec : ScannerKeepsToken exec buffer.data)
    (hW : buffer.data + buffer.size < WORD) (hts : parser.parserFSM.ts = 0) :
    (RAGEL_PARSE_STREAM exec reader name_error max fuel parser buffer mem source error).state.have_
      ≤ buffer.size ∧
    (RAGEL_PARSE_STREAM exec reader name_error max fuel parser buffer mem source error).state.buffer
      = buffer ∧
    (∀ read ok size, Event.reader read ok size ∈
        (RAGEL_PARSE_STREAM exec reader name_error max fuel parser buffer mem source
          error).state.log →
      buffer.data ≤ read.data ∧ (read.data - buffer.data) + read.size = buffer.size ∧
      read.size = buffer.size - (read.data - buffer.data) ∧ 0 < read.size) ∧
    (∀ m d, Event.exec m d ∈
        (RAGEL_PARSE_STREAM exec reader name_error max fuel parser buffer mem source
          error).state.log →
      buffer.data ≤ d.p ∧ d.p ≤ d.pe ∧ d.pe ≤ buffer.data + buffer.size) ∧
    (∀ src n, Event.memmove src n ∈
        (RAGEL_PARSE_STREAM exec reader name_error max fuel parser buffer mem source
          error).state.log →
      buffer.data ≤ src ∧ src + n ≤ buffer.data + buffer.size) := by
  have hinit : LoopInv buffer (streamInit parser buffer mem source error) :=
    ⟨rfl, Nat.zero_le _, Or.inl hts, fun ev hev => absurd hev (List.not_mem_nil ev)⟩
  obtain ⟨_, hhave, hlog⟩ :=
    (streamLoop_loopPost exec reader name_error max buffer hreader hexec hW fuel _ hinit).1
  refine ⟨hhave, by assumption, ?_, ?_, ?_⟩
  · intro read ok size hev
    have h := hlog _ hev
    obtain ⟨h1, h2, h3, _⟩ := h
    exact ⟨h1, h2, by omega, h3⟩
  · intro m d hev
    exact hlog _ hev
  · intro src n hev
    exact hlog _ hev

/-! ## C2: the window is a slice of the input -/

theorem memBytes_length (mem : Nat → Nat) (a n : Nat) : (memBytes mem a n).length = n := by
  simp [memBytes]

theorem memBytes_add (mem : Nat → Nat) (a m n : Nat) :
    memBytes mem a (m + n) = memBytes mem a m ++ memBytes mem (a + m) n := by
  simp [memBytes, List.range_add, List.map_append, List.map_map, Function.comp_def, Nat.add_assoc]

theorem memBytes_congr {mem mem2 : Nat → Nat} {a a2 n : Nat}
    (h : ∀ i, i < n → mem (a + i) = mem2 (a2 + i)) : memBytes mem a n = memBytes mem2 a2 n := by
  unfold memBytes
  apply List.map_congr_left
  intro i hi
  exact h i (List.mem_range.1 hi)

theorem ReaderDelivers.bounded {reader : ReaderFunc ρ} {pending : ρ → List Nat}
    (h : ReaderDelivers reader pending) : ReaderBounded reader :=
  fun src mem read hok => (h src mem read hok).1

/-- The window right after the reader call of a cycle that starts in the window
invariant. -/
theorem streamReader_window (reader : ReaderFunc ρ) (b : JSONParserBuffer)
    (pending : ρ → List Nat) (input : List Nat) (origin : Nat)
    (hreader : ReaderDelivers reader pending) (hW : b.data + b.size < WORD)
    (s : StreamState α ρ) (hinv : WindowInv b pending input origin s)
    (hok : (streamReaderCall reader s).ok = true) :
    streamFilled reader s ≤ b.size - s.have_ ∧
    origin + (s.have_ + streamFilled reader s) ≤ input.length ∧
    memBytes (streamReaderCall reader s).mem b.data (s.have_ + streamFilled reader s) =
      (input.drop origin).take (s.have_ + streamFilled reader s) ∧
    pending (streamReaderCall reader s).source =
      input.drop (origin + (s.have_ + streamFilled reader s)) := by
  obtain ⟨⟨hb, hhave, _, _⟩, hlen, hpend, hbytes⟩ := hinv
  have hsp : streamSpace s = b.size - s.have_ := by
    rw [streamSpace_of_le (by rw [hb]; exact hhave) (by rw [hb]; omega), hb]
  obtain ⟨hfe, hfs⟩ := streamFilled_of_bounded hreader.bounded hok
  have hp : (streamRead s).data = b.data + s.have_ := by
    show wadd s.buffer.data s.have_ = _
    rw [hb]; exact wadd_of_lt (by omega)
  obtain ⟨_, h2, h3, h4, h5⟩ := hreader s.source s.mem (streamRead s) hok
  have hr : reader s.source s.mem (streamRead s) = streamReaderCall reader s := rfl
  rw [hr, ← hfe] at h2 h3 h4 h5
  rw [hp] at h4 h5
  rw [hpend] at h2 h3 h4
  rw [List.length_drop] at h2
  refine ⟨by omega, by omega, ?_, ?_⟩
  · rw [memBytes_add, h4, List.take_add, List.drop_drop, ← hbytes]
    congr 1
    apply memBytes_congr
    intro i hi
    exact h5 (b.data + i) (Or.inl (by omega))
  · rw [h3, List.drop_drop]
    congr 1
    omega

/-- One cycle keeps the window invariant, with the origin moved to the input
position of the byte the token-start cursor designated, or to the end of the
bytes read when the cursor is unset. -/
theorem streamCycle_windowInv (exec : ExecFunc α) (reader : ReaderFunc ρ) (name_error : Int)
    (max : Nat) (b : JSONParserBuffer) (pending : ρ → List Nat) (input : List Nat) (origin : Nat)
    (hreader : ReaderDelivers reader pending) (hexec : ScannerKeepsToken exec b.data)
    (hbase : 0 < b.data) (hW : b.data + b.size < WORD)
    (s : StreamState α ρ) (hinv : WindowInv b pending input origin s)
    (hbrk : (streamScan exec reader name_error s).brk = false) :
    ((streamExecCall exec reader s).1.parserFSM.ts = 0 →
      WindowInv b pending input (origin + (s.have_ + streamFilled reader s))
        (streamCycle exec reader name_error max s).1) ∧
    (∀ off, (streamExecCall exec reader s).1.parserFSM.ts = b.data + off →
      off ≤ s.have_ + streamFilled reader s ∧
      WindowInv b pending input (origin + off) (streamCycle exec reader name_error max s).1) ∧
    ∃ origin2, WindowInv b pending input origin2 (streamCycle exec reader name_error max s).1 := by
  have hloop := (streamCycle_loopInv exec reader name_error max b hreader.bounded hexec hW s
    hinv.1).2 hbrk
  have hb : s.buffer = b := hinv.1.1
  have hhave : s.have_ ≤ b.size := hinv.1.2.1
  have hsp : streamSpace s = b.size - s.have_ := by
    rw [streamSpace_of_le (by rw [hb]; exact hhave) (by rw [hb]; omega), hb]
  have hspace : streamSpace s ≠ 0 := by
    intro h0
    rw [streamScan_full exec reader name_error s h0] at hbrk
    exact absurd hbrk (by simp)
  have hok : (streamReaderCall reader s).ok = true := by
    cases h : (streamReaderCall reader s).ok with
    | true => rfl
    | false =>
      rw [streamScan_fail exec reader name_error s hspace h] at hbrk
      exact absurd hbrk (by simp)
  obtain ⟨hfill, hlen, hbytes, hpend⟩ :=
    streamReader_window reader b pending input origin hreader hW s hinv hok
  have hscan := streamScan_ok exec reader name_error s hspace hok
  by_cases h1 : (streamExecCall exec reader s).1.parserFSM.cs = name_error
  · rw [hscan, if_pos h1] at hbrk
    exact absurd hbrk (by simp)
  rw [if_neg h1] at hscan
  by_cases h2 : (streamExecCall exec reader s).1.parserError ≠ JSON_PARSER_ERROR.NONE
  · rw [hscan, if_pos h2] at hbrk
    exact absurd hbrk (by simp)
  rw [if_neg h2] at hscan
  have hp : wadd s.buffer.data s.have_ = b.data + s.have_ := by
    rw [hb]; exact wadd_of_lt (by omega)
  have hdp : (streamData s (streamFilled reader s)).p = b.data + s.have_ := hp
  have hdpe : (streamData s (streamFilled reader s)).pe =
      b.data + (s.have_ + streamFilled reader s) := by
    show wadd (wadd s.buffer.data s.have_) (streamFilled reader s) = _
    rw [hp, wadd_of_lt (by omega)]; omega
  have hk := hexec s.parser (streamReaderCall reader s).mem
    (streamData s (streamFilled reader s))
    (by rcases hinv.1.2.2.1 with h | h
        · exact Or.inl h
        · right; rw [h, hdp]; omega)
    (by rw [hdp]; omega) (by rw [hdp, hdpe]; omega)
  rw [hdpe] at hk
  have hx : exec s.parser (streamReaderCall reader s).mem
      (streamData s (streamFilled reader s)) = streamExecCall exec reader s := rfl
  rw [hx] at hk
  obtain ⟨hpe2, hts2⟩ := hk
  rw [streamCycle_of_brk hbrk]
  have hstate : (streamScan exec reader name_error s).state.parser =
      (streamExecCall exec reader s).1 ∧
      (streamScan exec reader name_error s).state.mem = (streamReaderCall reader s).mem ∧
      (streamScan exec reader name_error s).state.source = (streamReaderCall reader s).source ∧
      (streamScan exec reader name_error s).state.buffer = s.buffer ∧
      (streamScan exec reader name_error s).data = (streamExecCall exec reader s).2 := by
    rw [hscan]
    exact ⟨rfl, rfl, rfl, rfl, rfl⟩
  obtain ⟨hsp1, hsm, hss, hsb, hsd⟩ := hstate
  have hunset : (streamExecCall exec reader s).1.parserFSM.ts = 0 →
      WindowInv b pending input (origin + (s.have_ + streamFilled reader s))
        (streamCompact max (streamScan exec reader name_error s).state
          (streamScan exec reader name_error s).data.pe) := by
    intro h0
    have h0s : (streamScan exec reader name_error s).state.parser.parserFSM.ts = 0 := by
      rw [hsp1]; exact h0
    refine ⟨hloop, ?_, ?_, ?_⟩
    · rw [streamCompact_unset h0s]; exact hlen
    · rw [streamCompact_source, hss, hpend, streamCompact_unset h0s]
      rfl
    · rw [streamCompact_unset h0s]
      simp [memBytes]
  have hset : ∀ off, (streamExecCall exec reader s).1.parserFSM.ts = b.data + off →
      off ≤ s.have_ + streamFilled reader s ∧
      WindowInv b pending input (origin + off)
        (streamCompact max (streamScan exec reader name_error s).state
          (streamScan exec reader name_error s).data.pe) := by
    intro off hoff
    have hne : (streamScan exec reader name_error s).state.parser.parserFSM.ts ≠ 0 := by
      rw [hsp1, hoff]; omega
    have hle : off ≤ s.have_ + streamFilled reader s := by
      rcases hts2 with h | h
      · rw [hoff] at h; omega
      · rw [hoff] at h; omega
    have hn : (streamCompact max (streamScan exec reader name_error s).state
        (streamScan exec reader name_error s).data.pe).have_ =
        s.have_ + streamFilled reader s - off := by
      rw [streamCompact_have hne, hsp1, hsd, hpe2, hoff, wsub_of_le (by omega) (by omega)]
      omega
    refine ⟨hle, hloop, ?_, ?_, ?_⟩
    · rw [hn]; omega
    · rw [streamCompact_source, hss, hpend, hn]
      congr 1
      omega
    · rw [hn, streamCompact_mem hne, hsp1, hsd, hpe2, hoff, hsm, hsb, hb,
        wsub_of_le (by omega) (by omega)]
      have hsplit := hbytes
      rw [show s.have_ + streamFilled reader s = off + (s.have_ + streamFilled reader s - off)
        by omega, memBytes_add, List.take_add, List.drop_drop] at hsplit
      have hparts := (List.append_inj hsplit (by
        rw [memBytes_length, List.length_take, List.length_drop]; omega)).2
      rw [← hparts]
      apply memBytes_congr
      intro i hi
      rw [show b.data + (s.have_ + streamFilled reader s) - (b.data + off) =
        s.have_ + streamFilled reader s - off by omega]
      exact memmove_apply_dst _ _ _ _ _ hi
  refine ⟨hunset, hset, ?_⟩
  rcases hts2 with h | h
  · exact ⟨_, hunset h⟩
  · exact ⟨_, (hset ((streamExecCall exec reader s).1.parserFSM.ts - b.data) (by omega)).2⟩

theorem streamLoop_windowInv (exec : ExecFunc α) (reader : ReaderFunc ρ) (name_error : Int)
    (max : Nat) (b : JSONParserBuffer) (pending : ρ → List Nat) (input : List Nat)
    (hreader : ReaderDelivers reader pending) (hexec : ScannerKeepsToken exec b.data)
    (hbase : 0 < b.data) (hW : b.data + b.size < WORD) (fuel : Nat)
    (s : StreamState α ρ) (origin : Nat) (hinv : WindowInv b pending input origin s)
    (hrun : (streamLoop exec reader name_error max fuel s).isExited = false) :
    ∃ origin2, WindowInv b pending input origin2
      (streamLoop exec reader name_error max fuel s).state := by
  induction fuel generalizing s origin with
  | zero =>
    unfold streamLoop at hrun ⊢
    split_ifs at hrun ⊢
    · exact absurd hrun (by simp [Outcome.isExited])
    · exact ⟨origin, hinv⟩
  | succ n ih =>
    cases hdone : s.done with
    | true =>
      rw [streamLoop_done _ _ _ _ _ _ hdone] at hrun
      exact absurd hrun (by simp [Outcome.isExited])
    | false =>
      rw [streamLoop_succ _ _ _ _ _ _ hdone] at hrun ⊢
      cases hbrk : (streamScan exec reader name_error s).brk with
      | true =>
        simp only [streamCycle, hbrk, if_true] at hrun
        exact absurd hrun (by simp [Outcome.isExited])
      | false =>
        obtain ⟨origin2, h2⟩ := (streamCycle_windowInv exec reader name_error max b pending input
          origin hreader hexec hbase hW s hinv hbrk).2.2
        have hc : (streamCycle exec reader name_error max s).2 = false := by
          simp [streamCycle, hbrk]
        rw [hc] at hrun ⊢
        simp only [Bool.false_eq_true, if_false] at hrun ⊢
        exact ih _ origin2 h2 hrun

/-- C2. Byte-identical reconstruction across refills.  Let the reader hand out
the bytes of its pending input in order, in chunks no longer than requested,
and let the scanner leave the token-start cursor unset or inside the window.
Then (1) the run starts in the window invariant at origin 0; (2) every state
in which a cycle starts satisfies the window invariant for some origin;
(3) in a cycle that starts in the window invariant at `origin` and gets to its
scanner run, the scanner's window is `[buffer start + have, buffer start +
have + filled)`, the buffer bytes from offset 0 to the window end are exactly
the input bytes from position `origin` up to the last byte read so far, and,
if the cycle does not end the parse, the next cycle starts in the window
invariant at the input position of the byte the token-start cursor
designated, or, with no token pending, at the first byte not yet read;
(4) two cycles that start in the window invariant at the same origin, however
the reader split the input before them, and whose windows have the same
length, hand byte-identical windows to the scanner. -/
theorem C2_window_is_input (exec : ExecFunc α) (reader : ReaderFunc ρ) (name_error : Int)
    (max : Nat) (pending : ρ → List Nat) (parser : ParserState α) (buffer : JSONParserBuffer)
    (mem : Nat → Nat) (source : ρ) (error : Bool)
    (hreader : ReaderDelivers reader pending) (hexec : ScannerKeepsToken exec buffer.data)
    (hbase : 0 < buffer.data) (hW : buffer.data + buffer.size < WORD)
    (hts : parser.parserFSM.ts = 0) :
    WindowInv buffer pending (pending source) 0 (streamInit parser buffer mem source error) ∧
    (∀ fuel,
      (RAGEL_PARSE_STREAM exec reader name_error max fuel parser buffer mem source
        error).isExited = false →
      ∃ origin, WindowInv buffer pending (pending source) origin
        (RAGEL_PARSE_STREAM exec reader name_error max fuel parser buffer mem source
          error).state) ∧
    (∀ (s : StreamState α ρ) (origin : Nat),
      WindowInv buffer pending (pending source) origin s →
      streamSpace s ≠ 0 → (streamReaderCall reader s).ok = true →
      (streamData s (streamFilled reader s)).p = buffer.data + s.have_ ∧
      (streamData s (streamFilled reader s)).pe =
        buffer.data + (s.have_ + streamFilled reader s) ∧
      memBytes (streamReaderCall reader s).mem buffer.data (s.have_ + streamFilled reader s) =
        ((pending source).drop origin).take (s.have_ + streamFilled reader s) ∧
      pending (streamReaderCall reader s).source =
        (pending source).drop (origin + (s.have_ + streamFilled reader s)) ∧
      ((streamScan exec reader name_error s).brk = false →
        ((streamExecCall exec reader s).1.parserFSM.ts = 0 →
          WindowInv buffer pending (pending source) (origin + (s.have_ + streamFilled reader s))
            (streamCycle exec reader name_error max s).1) ∧
        (∀ off, (streamExecCall exec reader s).1.parserFSM.ts = buffer.data + off →
          off ≤ s.have_ + streamFilled reader s ∧
          WindowInv buffer pending (pending source) (origin + off)
            (streamCycle exec reader name_error max s).1))) ∧
    (∀ (s t : StreamState α ρ) (origin : Nat),
      WindowInv buffer pending (pending source) origin s →
      WindowInv buffer pending (pending source) origin t →
      (streamReaderCall reader s).ok = true → (streamReaderCall reader t).ok = true →
      s.have_ + streamFilled reader s = t.have_ + streamFilled reader t →
      memBytes (streamReaderCall reader s).mem buffer.data (s.have_ + streamFilled reader s) =
        memBytes (streamReaderCall reader t).mem buffer.data
          (t.have_ + streamFilled reader t)) := by
  have hinit : WindowInv buffer pending (pending source) 0
      (streamInit parser buffer mem source error) :=
    ⟨⟨rfl, Nat.zero_le _, Or.inl hts, fun ev hev => absurd hev (List.not_mem_nil ev)⟩,
      Nat.zero_le _, rfl, rfl⟩
  refine ⟨hinit, ?_, ?_, ?_⟩
  rotate_left 2
  · intro s t origin hs ht hoks hokt hlen
    rw [(streamReader_window reader buffer pending (pending source) origin hreader hW s hs
        hoks).2.2.1,
      (streamReader_window reader buffer pending (pending source) origin hreader hW t ht
        hokt).2.2.1, hlen]
  · intro fuel hrun
    exact streamLoop_windowInv exec reader name_error max buffer pending (pending source)
      hreader hexec hbase hW fuel _ 0 hinit hrun
  · intro s origin hinv hspace hok
    obtain ⟨hfill, hlen, hbytes, hpend⟩ :=
      streamReader_window reader buffer pending (pending source) origin hreader hW s hinv hok
    have hb : s.buffer = buffer := hinv.1.1
    have hhave : s.have_ ≤ buffer.size := hinv.1.2.1
    have hp : wadd s.buffer.data s.have_ = buffer.data + s.have_ := by
      rw [hb]; exact wadd_of_lt (by omega)
    refine ⟨hp, ?_, hbytes, hpend, ?_⟩
    · show wadd (wadd s.buffer.data s.have_) (streamFilled reader s) = _
      rw [hp, wadd_of_lt (by omega)]; omega
    · intro hbrk
      have h := streamCycle_windowInv exec reader name_error max buffer pending (pending source)
        origin hreader hexec hbase hW s hinv hbrk
      exact ⟨h.1, h.2.1⟩

/-! ## The small scanner and the small reader meet the conditions -/

theorem lineScan_ts (mem : Nat → Nat) (n a : Nat) (f : FiniteStateMachine) :
    (lineScan mem n a f).ts = 0 ∨ (lineScan mem n a f).ts = f.ts ∨
      (a ≤ (lineScan mem n a f).ts ∧ (lineScan mem n a f).ts < a + n) := by
  induction n generalizing a f with
  | zero => right; left; rfl
  | succ n ih =>
    unfold lineScan
    split_ifs with h1 h2 h3 h4
    · right; left; rfl
    · right; left; rfl
    · rcases ih (a + 1) { cs := 2, ts := 0, te := a + 1 } with h | h | h
      · exact Or.inl h
      · exact Or.inl h
      · right; right; omega
    · rcases ih (a + 1) { cs := 1, ts := a, te := f.te } with h | h | h
      · exact Or.inl h
      · right; right
        simp only at h
        omega
      · right; right; omega
    · rcases ih (a + 1) { cs := 1, ts := f.ts, te := f.te } with h | h | h
      · exact Or.inl h
      · right; left; exact h
      · right; right; omega

theorem lineExec_keepsToken (base : Nat) : ScannerKeepsToken lineExec base := by
  intro parser mem d hts hp hpe
  refine ⟨rfl, ?_⟩
  show (lineScan mem (d.pe - d.p) d.p parser.parserFSM).ts = 0 ∨ _
  rcases lineScan_ts mem (d.pe - d.p) d.p parser.parserFSM with h | h | h
  · exact Or.inl h
  · rcases hts with h0 | h0
    · left; rw [h, h0]
    · right
      show base ≤ (lineScan mem (d.pe - d.p) d.p parser.parserFSM).ts ∧
        (lineScan mem (d.pe - d.p) d.p parser.parserFSM).ts ≤ d.pe
      rw [h]; omega
  · right
    show base ≤ (lineScan mem (d.pe - d.p) d.p parser.parserFSM).ts ∧
      (lineScan mem (d.pe - d.p) d.p parser.parserFSM).ts ≤ d.pe
    omega

theorem memBytes_writeBytes (mem : Nat → Nat) (p : Nat) (bytes : List Nat) :
    memBytes (writeBytes mem p bytes) p bytes.length = bytes := by
  apply List.ext_getElem
  · exact memBytes_length _ _ _
  · intro i h1 h2
    simp only [memBytes, List.getElem_map, List.getElem_range, writeBytes]
    rw [if_pos ⟨by omega, by omega⟩, show p + i - p = i by omega, List.getD_eq_getElem _ _ h2]

theorem splitReader_delivers : ReaderDelivers splitReader SplitSource.input := by
  intro src mem read _
  cases hs : src.sizes with
  | nil =>
    simp [splitReader, hs, memBytes]
  | cons n rest =>
    simp only [splitReader, hs]
    refine ⟨?_, ?_, ?_, ?_, ?_⟩
    · rw [List.length_take]; omega
    · rw [List.length_take]; omega
    · trivial
    · rw [memBytes_writeBytes, List.length_take]
      conv_rhs => rw [← List.take_take, List.take_length]
    · intro a ha
      simp only [writeBytes]
      rw [if_neg]
      omega

theorem splitReader_bounded : ReaderBounded splitReader :=
  splitReader_delivers.bounded

/-- Witness of C2: the line scanner and the small reader on `ab\ncd` delivered as
`ab\n` and `cd`; after one cycle the loop is still running. -/
theorem C2_window_is_input_witness :
    (splitStream 1).isExited = false ∧
    ∃ origin, WindowInv { data := 1000, size := 8 } SplitSource.input [97, 98, 10, 99, 100]
      origin (splitStream 1).state :=
  ⟨by decide,
   (C2_window_is_input lineExec splitReader 0 4 SplitSource.input (freshParser 2)
      { data := 1000, size := 8 } zeroMem { input := [97, 98, 10, 99, 100], sizes := [3, 2] }
      false splitReader_delivers (lineExec_keepsToken 1000) (by decide) (by decide)
      (by decide)).2.1 1 (by decide)⟩

/-- Witness of C9: the same run, three cycles. -/
theorem C9_loop_invariant_witness :
    (splitStream 3).state.have_ ≤ 8 ∧
    (∀ m d, Event.exec m d ∈ (splitStream 3).state.log →
      1000 ≤ d.p ∧ d.p ≤ d.pe ∧ d.pe ≤ 1000 + 8) :=
  ⟨(C9_loop_invariant lineExec splitReader 0 4 3 (freshParser 2) { data := 1000, size := 8 }
      zeroMem { input := [97, 98, 10, 99, 100], sizes := [3, 2] } false splitReader_bounded
      (lineExec_keepsToken 1000) (by decide) (by decide)).1,
   (C9_loop_invariant lineExec splitReader 0 4 3 (freshParser 2) { data := 1000, size := 8 }
      zeroMem { input := [97, 98, 10, 99, 100], sizes := [3, 2] } false splitReader_bounded
      (lineExec_keepsToken 1000) (by decide) (by decide)).2.2.2.1⟩

/-! ## C10: termination -/

theorem streamCompact_log_filter (f : Event → Bool) (hf : ∀ src n, f (Event.memmove src n) = false)
    (max : Nat) (s : StreamState α ρ) (pe : Nat) :
    (streamCompact max s pe).log.filter f = s.log.filter f := by
  simp only [streamCompact]
  split_ifs
  · rfl
  · simp [List.filter_append, hf]

theorem streamCycle_reader_count (exec : ExecFunc α) (reader : ReaderFunc ρ) (name_error : Int)
    (max : Nat) (s : StreamState α ρ) :
    ((streamCycle exec reader name_error max s).1.log.filter Event.isReader).length ≤
      (s.log.filter Event.isReader).length + 1 := by
  have hscan : ((streamScan exec reader name_error s).state.log.filter Event.isReader).length ≤
      (s.log.filter Event.isReader).length + 1 := by
    by_cases hspace : streamSpace s = 0
    · rw [streamScan_full exec reader name_error s hspace]
      exact Nat.le_succ _
    cases hok : (streamReaderCall reader s).ok with
    | false =>
      rw [streamScan_fail exec reader name_error s hspace hok]
      simp [List.filter_append, Event.isReader]
    | true =>
      rw [streamScan_ok exec reader name_error s hspace hok]
      split_ifs <;> simp [List.filter_append, List.filter_cons, Event.isReader]
  unfold streamCycle
  simp only
  split_ifs
  · exact hscan
  · rw [streamCompact_log_filter Event.isReader (fun _ _ => rfl)]
    exact hscan

/-- State after a cycle that did not `break`: the reader was called and succeeded,
the source is the one it left, and `done` is set exactly when it reported zero
bytes. -/
theorem streamCycle_continue (exec : ExecFunc α) (reader : ReaderFunc ρ) (name_error : Int)
    (max : Nat) (s : StreamState α ρ)
    (hbrk : (streamScan exec reader name_error s).brk = false) :
    streamSpace s ≠ 0 ∧ (streamReaderCall reader s).ok = true ∧
    (streamCycle exec reader name_error max s).2 = false ∧
    (streamCycle exec reader name_error max s).1.source = (streamReaderCall reader s).source ∧
    (streamCycle exec reader name_error max s).1.done =
      (if streamFilled reader s = 0 then true else s.done) ∧
    (streamCycle exec reader name_error max s).1.error = s.error ∧
    (streamScan exec reader name_error s).state.log =
      s.log ++ [Event.reader (streamRead s) true (streamFilled reader s),
        Event.exec (streamReaderCall reader s).mem (streamData s (streamFilled reader s))] := by
  have hspace : streamSpace s ≠ 0 := by
    intro h0
    rw [streamScan_full exec reader name_error s h0] at hbrk
    exact absurd hbrk (by simp)
  have hok : (streamReaderCall reader s).ok = true := by
    cases h : (streamReaderCall reader s).ok with
    | true => rfl
    | false =>
      rw [streamScan_fail exec reader name_error s hspace h] at hbrk
      exact absurd hbrk (by simp)
  have hscan := streamScan_ok exec reader name_error s hspace hok
  by_cases h1 : (streamExecCall exec reader s).1.parserFSM.cs = name_error
  · rw [hscan, if_pos h1] at hbrk
    exact absurd hbrk (by simp)
  rw [if_neg h1] at hscan
  by_cases h2 : (streamExecCall exec reader s).1.parserError ≠ JSON_PARSER_ERROR.NONE
  · rw [hscan, if_pos h2] at hbrk
    exact absurd hbrk (by simp)
  rw [if_neg h2] at hscan
  rw [streamCycle_of_brk hbrk]
  refine ⟨hspace, hok, rfl, ?_, ?_, ?_, ?_⟩
  · show (streamCompact max _ _).source = _
    rw [streamCompact_source, hscan]
  · show (streamCompact max _ _).done = _
    rw [streamCompact_done, hscan]
  · show (streamCompact max _ _).error = _
    rw [streamCompact_error, hscan]
  · rw [hscan]

theorem streamCycle_break (exec : ExecFunc α) (reader : ReaderFunc ρ) (name_error : Int)
    (max : Nat) (s : StreamState α ρ)
    (hbrk : (streamScan exec reader name_error s).brk = true) :
    streamCycle exec reader name_error max s = ((streamScan exec reader name_error s).state, true) ∧
    (streamScan exec reader name_error s).state.error = true := by
  refine ⟨by simp [streamCycle, hbrk], ?_⟩
  by_cases hspace : streamSpace s = 0
  · rw [streamScan_full exec reader name_error s hspace]
  cases hok : (streamReaderCall reader s).ok with
  | false => rw [streamScan_fail exec reader name_error s hspace hok]
  | true =>
    have hscan := streamScan_ok exec reader name_error s hspace hok
    by_cases h1 : (streamExecCall exec reader s).1.parserFSM.cs = name_error
    · rw [hscan, if_pos h1]
    rw [if_neg h1] at hscan
    by_cases h2 : (streamExecCall exec reader s).1.parserError ≠ JSON_PARSER_ERROR.NONE
    · rw [hscan, if_pos h2]
    rw [if_neg h2] at hscan
    rw [hscan] at hbrk
    exact absurd hbrk (by simp)

theorem streamLoop_mono (exec : ExecFunc α) (reader : ReaderFunc ρ) (name_error : Int)
    (max : Nat) (n : Nat) (s : StreamState α ρ)
    (h : (streamLoop exec reader name_error max n s).isExited = true) (m : Nat) (hm : n ≤ m) :
    streamLoop exec reader name_error max m s = streamLoop exec reader name_error max n s := by
  induction n generalizing s m with
  | zero =>
    cases hdone : s.done with
    | true => rw [streamLoop_done _ _ _ _ _ _ hdone, streamLoop_done _ _ _ _ _ _ hdone]
    | false =>
      simp [streamLoop, hdone, Outcome.isExited] at h
  | succ n ih =>
    cases hdone : s.done with
    | true => rw [streamLoop_done _ _ _ _ _ _ hdone, streamLoop_done _ _ _ _ _ _ hdone]
    | false =>
      obtain ⟨k, rfl⟩ : ∃ k, m = k + 1 := ⟨m - 1, by omega⟩
      rw [streamLoop_succ _ _ _ _ _ _ hdone] at h ⊢
      rw [streamLoop_succ _ _ _ _ _ _ hdone]
      split_ifs at h ⊢ with hc
      · rfl
      · exact ih _ h k (by omega)

theorem streamLoop_terminates (exec : ExecFunc α) (reader : ReaderFunc ρ) (name_error : Int)
    (max : Nat) (chunksLeft : ρ → Nat) (hreader : ReaderFinite reader chunksLeft) (n : Nat)
    (s : StreamState α ρ) (hn : chunksLeft s.source ≤ n) :
    (streamLoop exec reader name_error max (n + 1) s).isExited = true ∧
    ((streamLoop exec reader name_error max (n + 1) s).state.log.filter Event.isReader).length ≤
      (s.log.filter Event.isReader).length + (n + 1) := by
  induction n generalizing s with
  | zero =>
    cases hdone : s.done with
    | true =>
      rw [streamLoop_done _ _ _ _ _ _ hdone]
      exact ⟨rfl, Nat.le_add_right _ _⟩
    | false =>
      rw [streamLoop_succ _ _ _ _ _ _ hdone]
      have hcount := streamCycle_reader_count exec reader name_error max s
      cases hbrk : (streamScan exec reader name_error s).brk with
      | true =>
        rw [(streamCycle_break exec reader name_error max s hbrk).1] at hcount ⊢
        exact ⟨rfl, hcount⟩
      | false =>
        obtain ⟨_, hok, hc, hsrc, hd, _, _⟩ :=
          streamCycle_continue exec reader name_error max s hbrk
        have hz : streamFilled reader s = 0 := by
          have hsz : (streamReaderCall reader s).size = 0 := (hreader _ _ _ hok).1 (by omega)
          unfold streamFilled
          rw [hsz]
          rfl
        rw [hz] at hd
        rw [hc]
        simp only [Bool.false_eq_true, if_false]
        rw [streamLoop_done _ _ _ _ _ _ (by simpa using hd)]
        exact ⟨rfl, hcount⟩
  | succ n ih =>
    cases hdone : s.done with
    | true =>
      rw [streamLoop_done _ _ _ _ _ _ hdone]
      exact ⟨rfl, Nat.le_add_right _ _⟩
    | false =>
      rw [streamLoop_succ _ _ _ _ _ _ hdone]
      have hcount := streamCycle_reader_count exec reader name_error max s
      cases hbrk : (streamScan exec reader name_error s).brk with
      | true =>
        rw [(streamCycle_break exec reader name_error max s hbrk).1] at hcount ⊢
        exact ⟨rfl, by simp only at hcount ⊢; simp only [if_true, Outcome.state]; omega⟩
      | false =>
        obtain ⟨_, hok, hc, hsrc, hd, _, _⟩ :=
          streamCycle_continue exec reader name_error max s hbrk
        rw [hc]
        simp only [Bool.false_eq_true, if_false]
        by_cases h0 : chunksLeft s.source = 0
        · have hz : streamFilled reader s = 0 := by
            have hsz : (streamReaderCall reader s).size = 0 := (hreader _ _ _ hok).1 h0
            unfold streamFilled
            rw [hsz]
            rfl
          rw [hz] at hd
          rw [streamLoop_done _ _ _ _ _ _ (by simpa using hd)]
          exact ⟨rfl, by simp only [Outcome.state]; omega⟩
        · have hdec := (hreader _ _ _ hok).2 h0
          have hr : reader s.source s.mem (streamRead s) = streamReaderCall reader s := rfl
          rw [hr, ← hsrc] at hdec
          obtain ⟨h1, h2⟩ := ih (streamCycle exec reader name_error max s).1 (by omega)
          exact ⟨h1, by omega⟩

/-- C10. Termination: when the reader has finitely many chunks left and reports
zero bytes once they are used up, `RAGEL_PARSE_STREAM` leaves its loop within
(number of chunks + 1) cycles, more cycles allowed change nothing, the reader
is called at most (number of chunks + 1) times in all, and every single cycle
calls it at most once. -/
theorem C10_termination (exec : ExecFunc α) (reader : ReaderFunc ρ) (name_error : Int)
    (max : Nat) (chunksLeft : ρ → Nat) (parser : ParserState α) (buffer : JSONParserBuffer)
    (mem : Nat → Nat) (source : ρ) (error : Bool) (hreader : ReaderFinite reader chunksLeft) :
    (RAGEL_PARSE_STREAM exec reader name_error max (chunksLeft source + 1) parser buffer mem
      source error).isExited = true ∧
    (∀ fuel, chunksLeft source + 1 ≤ fuel →
      RAGEL_PARSE_STREAM exec reader name_error max fuel parser buffer mem source error =
        RAGEL_PARSE_STREAM exec reader name_error max (chunksLeft source + 1) parser buffer mem
          source error) ∧
    ((RAGEL_PARSE_STREAM exec reader name_error max (chunksLeft source + 1) parser buffer mem
      source error).state.log.filter Event.isReader).length ≤ chunksLeft source + 1 ∧
    (∀ t : StreamState α ρ,
      ((streamCycle exec reader name_error max t).1.log.filter Event.isReader).length ≤
        (t.log.filter Event.isReader).length + 1) := by
  have h := streamLoop_terminates exec reader name_error max chunksLeft hreader
    (chunksLeft source) (streamInit parser buffer mem source error) (Nat.le_refl _)
  refine ⟨h.1, ?_, ?_, streamCycle_reader_count exec reader name_error max⟩
  · intro fuel hfuel
    exact streamLoop_mono exec reader name_error max _ _ h.1 fuel hfuel
  · have h2 := h.2
    simp only [streamInit, List.filter_nil, List.length_nil, Nat.zero_add] at h2
    exact h2

theorem splitReader_finite : ReaderFinite splitReader (fun src => src.sizes.length) := by
  intro src mem read _
  cases hs : src.sizes with
  | nil => simp [splitReader, hs]
  | cons n rest => simp [splitReader, hs]

/-- Witness of C10: two chunks, so three cycles end the loop. -/
theorem C10_termination_witness :
    (splitStream 3).isExited = true ∧
    ((splitStream 3).state.log.filter Event.isReader).length ≤ 2 + 1 :=
  ⟨(C10_termination lineExec splitReader 0 4 (fun src => src.sizes.length) (freshParser 2)
      { data := 1000, size := 8 } zeroMem { input := [97, 98, 10, 99, 100], sizes := [3, 2] }
      false splitReader_finite).1,
   (C10_termination lineExec splitReader 0 4 (fun src => src.sizes.length) (freshParser 2)
      { data := 1000, size := 8 } zeroMem { input := [97, 98, 10, 99, 100], sizes := [3, 2] }
      false splitReader_finite).2.2.1⟩

/-! ## C7: the end-of-input flag -/

theorem streamScan_log (exec : ExecFunc α) (reader : ReaderFunc ρ) (name_error : Int)
    (s : StreamState α ρ) (hspace : streamSpace s ≠ 0)
    (hok : (streamReaderCall reader s).ok = true) :
    (streamScan exec reader name_error s).state.log =
      s.log ++ [Event.reader (streamRead s) true (streamFilled reader s),
        Event.exec (streamReaderCall reader s).mem (streamData s (streamFilled reader s))] := by
  rw [streamScan_ok exec reader name_error s hspace hok]
  by_cases h1 : (streamExecCall exec reader s).1.parserFSM.cs = name_error
  · rw [if_pos h1]
  rw [if_neg h1]
  by_cases h2 : (streamExecCall exec reader s).1.parserError ≠ JSON_PARSER_ERROR.NONE
  · rw [if_pos h2]
  rw [if_neg h2]

/-- The window of a cycle that starts in the loop invariant. -/
theorem streamData_of_loopInv (reader : ReaderFunc ρ) (b : JSONParserBuffer)
    (hreader : ReaderBounded reader) (hbase : 0 < b.data) (hW : b.data + b.size < WORD)
    (s : StreamState α ρ) (hinv : LoopInv b s) (hok : (streamReaderCall reader s).ok = true) :
    (streamData s (streamFilled reader s)).pe = b.data + (s.have_ + streamFilled reader s) ∧
    ((streamData s (streamFilled reader s)).eof ≠ 0 ↔ streamFilled reader s = 0) := by
  obtain ⟨hb, hhave, _, _⟩ := hinv
  have hsp : streamSpace s = b.size - s.have_ := by
    rw [streamSpace_of_le (by rw [hb]; exact hhave) (by rw [hb]; omega), hb]
  have hfill := (streamFilled_of_bounded hreader hok).2
  have hp : wadd s.buffer.data s.have_ = b.data + s.have_ := by
    rw [hb]; exact wadd_of_lt (by omega)
  have hpe : wadd (wadd s.buffer.data s.have_) (streamFilled reader s) =
      b.data + (s.have_ + streamFilled reader s) := by
    rw [hp, wadd_of_lt (by omega)]; omega
  refine ⟨hpe, ?_⟩
  show (if streamFilled reader s = 0 then
    wadd (wadd s.buffer.data s.have_) (streamFilled reader s) else 0) ≠ 0 ↔ _
  rw [hpe]
  split_ifs with h0
  · exact ⟨fun _ => h0, fun _ => by omega⟩
  · exact ⟨fun h => absurd rfl h, fun h => absurd h h0⟩

theorem streamLoop_zero_filled (exec : ExecFunc α) (reader : ReaderFunc ρ) (name_error : Int)
    (max fuel : Nat) (s : StreamState α ρ) (hdone : s.done = false)
    (hz : streamFilled reader s = 0) :
    streamLoop exec reader name_error max (fuel + 1) s =
      Outcome.exited (streamCycle exec reader name_error max s).1 := by
  rw [streamLoop_succ _ _ _ _ _ _ hdone]
  cases hbrk : (streamScan exec reader name_error s).brk with
  | true =>
    rw [(streamCycle_break exec reader name_error max s hbrk).1]
    rfl
  | false =>
    obtain ⟨_, _, hc, _, hd, _, _⟩ := streamCycle_continue exec reader name_error max s hbrk
    rw [hz] at hd
    rw [hc]
    simp only [Bool.false_eq_true, if_false]
    exact streamLoop_done _ _ _ _ _ _ (by simpa using hd)

theorem EofOnce.count {log : List Event} (h : EofOnce log) :
    (log.filter Event.isExecEof).length = 1 := by
  obtain ⟨pre, m, d, hlog, hd, hpre⟩ := h
  have hsub : log.filter Event.isExecEof = (log.filter Event.isExec).filter Event.isExecEof := by
    rw [List.filter_filter]
    congr 1
    funext e
    cases e <;> simp [Event.isExec, Event.isExecEof]
  rw [hsub, hlog, List.filter_append]
  have h1 : pre.filter Event.isExecEof = [] := by
    rw [List.filter_eq_nil_iff]
    intro e he
    simp [hpre e he]
  rw [h1]
  simp [Event.isExecEof, hd]

theorem streamLoop_eofOnce (exec : ExecFunc α) (reader : ReaderFunc ρ) (name_error : Int)
    (max : Nat) (b : JSONParserBuffer) (hreader : ReaderBounded reader)
    (hexec : ScannerKeepsToken exec b.data) (hbase : 0 < b.data) (hW : b.data + b.size < WORD)
    (fuel : Nat) (s : StreamState α ρ) (hinv : LoopInv b s) (herr : s.error = false)
    (hdone : s.done = false) (hlog : ∀ e, e ∈ s.log → e.isExecEof = false)
    (hex : (streamLoop exec reader name_error max fuel s).isExited = true)
    (hne : (streamLoop exec reader name_error max fuel s).state.error = false) :
    EofOnce (streamLoop exec reader name_error max fuel s).state.log := by
  induction fuel generalizing s with
  | zero =>
    simp [streamLoop, hdone, Outcome.isExited] at hex
  | succ n ih =>
    rw [streamLoop_succ _ _ _ _ _ _ hdone] at hex hne ⊢
    cases hbrk : (streamScan exec reader name_error s).brk with
    | true =>
      obtain ⟨hc, he⟩ := streamCycle_break exec reader name_error max s hbrk
      rw [hc] at hne
      simp only [if_true, Outcome.state] at hne
      rw [he] at hne
      exact absurd hne (by simp)
    | false =>
      obtain ⟨hspace, hok, hc, _, hd, he, hl⟩ :=
        streamCycle_continue exec reader name_error max s hbrk
      have hinv2 : LoopInv b (streamCycle exec reader name_error max s).1 := by
        rw [streamCycle_of_brk hbrk]
        exact (streamCycle_loopInv exec reader name_error max b hreader hexec hW s hinv).2 hbrk
      have hfil : ∀ f : Event → Bool, (∀ src k, f (Event.memmove src k) = false) →
          (streamCycle exec reader name_error max s).1.log.filter f =
            (s.log ++ [Event.reader (streamRead s) true (streamFilled reader s),
              Event.exec (streamReaderCall reader s).mem
                (streamData s (streamFilled reader s))]).filter f := by
        intro f hf
        rw [streamCycle_of_brk hbrk]
        show (streamCompact max _ _).log.filter f = _
        rw [streamCompact_log_filter f hf, hl]
      have heof := (streamData_of_loopInv reader b hreader hbase hW s hinv hok).2
      rw [hc] at hex hne ⊢
      simp only [Bool.false_eq_true, if_false] at hex hne ⊢
      by_cases hz : streamFilled reader s = 0
      · rw [hz] at hd
        rw [streamLoop_done _ _ _ _ _ _ (by simpa using hd)]
        refine ⟨s.log.filter Event.isExec, (streamReaderCall reader s).mem,
          streamData s (streamFilled reader s), ?_, heof.2 hz, ?_⟩
        · show (streamCycle exec reader name_error max s).1.log.filter Event.isExec = _
          rw [hfil Event.isExec (fun _ _ => rfl)]
          simp [List.filter_append, List.filter_cons, Event.isExec]
        · intro e hel
          exact hlog e (List.mem_of_mem_filter hel)
      · rw [if_neg hz] at hd
        refine ih _ hinv2 (by rw [he, herr]) (by rw [hd, hdone]) ?_ hex hne
        intro e hel
        have hnot : ¬ (streamData s (streamFilled reader s)).eof ≠ 0 := fun h => hz (heof.1 h)
        by_contra hcon
        have hmem : e ∈ (streamCycle exec reader name_error max s).1.log.filter
            Event.isExecEof := List.mem_filter.2 ⟨hel, by simpa using hcon⟩
        rw [hfil Event.isExecEof (fun _ _ => rfl), List.filter_append] at hmem
        rcases List.mem_append.1 hmem with h | h
        · have := hlog e (List.mem_of_mem_filter h)
          exact hcon this
        · simp only [List.filter_cons, Event.isExecEof, List.filter_nil] at h
          simp only [ne_eq, Decidable.not_not] at hnot
          simp [hnot] at h

/-- C7. The end-of-input flag.  With a reader that reports at most what it was
asked for, a scanner that leaves the token-start cursor unset or inside the
window, and a buffer at a non-null address inside the address space:
(1) every state in which a cycle starts satisfies the loop invariant;
(2) a cycle that starts in the loop invariant and gets to its scanner run calls
the reader and then runs the scanner on a window that ends at offset
`have + filled` and has the end-of-input pointer set if and only if the reader
reported zero bytes; a cycle whose reader reported zero bytes is the last one;
(3) in a parse that has ended without error, the scanner runs end with a run
that has the end-of-input pointer set, no earlier run has it set, so it is set
in exactly one run. -/
theorem C7_end_of_input_flag (exec : ExecFunc α) (reader : ReaderFunc ρ) (name_error : Int)
    (max : Nat) (parser : ParserState α) (buffer : JSONParserBuffer) (mem : Nat → Nat)
    (source : ρ) (hreader : ReaderBounded reader) (hexec : ScannerKeepsToken exec buffer.data)
    (hbase : 0 < buffer.data) (hW : buffer.data + buffer.size < WORD)
    (hts : parser.parserFSM.ts = 0) :
    (∀ fuel,
      (RAGEL_PARSE_STREAM exec reader name_error max fuel parser buffer mem source
        false).isExited = false →
      LoopInv buffer (RAGEL_PARSE_STREAM exec reader name_error max fuel parser buffer mem source
        false).state) ∧
    (∀ s : StreamState α ρ, LoopInv buffer s → streamSpace s ≠ 0 →
      (streamReaderCall reader s).ok = true →
      (streamScan exec reader name_error s).state.log =
        s.log ++ [Event.reader (streamRead s) true (streamFilled reader s),
          Event.exec (streamReaderCall reader s).mem (streamData s (streamFilled reader s))] ∧
      (streamData s (streamFilled reader s)).pe =
        buffer.data + (s.have_ + streamFilled reader s) ∧
      ((streamData s (streamFilled reader s)).eof ≠ 0 ↔ streamFilled reader s = 0) ∧
      (streamFilled reader s = 0 → s.done = false → ∀ fuel,
        streamLoop exec reader name_error max (fuel + 1) s =
          Outcome.exited (streamCycle exec reader name_error max s).1)) ∧
    (∀ fuel,
      (RAGEL_PARSE_STREAM exec reader name_error max fuel parser buffer mem source
        false).isExited = true →
      (RAGEL_PARSE_STREAM exec reader name_error max fuel parser buffer mem source
        false).state.error = false →
      EofOnce (RAGEL_PARSE_STREAM exec reader name_error max fuel parser buffer mem source
        false).state.log ∧
      ((RAGEL_PARSE_STREAM exec reader name_error max fuel parser buffer mem source
        false).state.log.filter Event.isExecEof).length = 1) := by
  have hinit : LoopInv buffer (streamInit parser buffer mem source false) :=
    ⟨rfl, Nat.zero_le _, Or.inl hts, fun ev hev => absurd hev (List.not_mem_nil ev)⟩
  refine ⟨?_, ?_, ?_⟩
  · intro fuel hrun
    exact (streamLoop_loopPost exec reader name_error max buffer hreader hexec hW fuel _
      hinit).2 hrun
  · intro s hinv hspace hok
    have hd := streamData_of_loopInv reader buffer hreader hbase hW s hinv hok
    exact ⟨streamScan_log exec reader name_error s hspace hok, hd.1, hd.2,
      fun hz hdone fuel => streamLoop_zero_filled exec reader name_error max fuel s hdone hz⟩
  · intro fuel hex hne
    have h := streamLoop_eofOnce exec reader name_error max buffer hreader hexec hbase hW fuel
      (streamInit parser buffer mem source false) hinit rfl rfl
      (fun e he => absurd he (List.not_mem_nil e)) hex hne
    exact ⟨h, h.count⟩

/-- Witness of C7: the run on `ab\ncd` in two chunks ends without error after
three cycles. -/
theorem C7_end_of_input_flag_witness :
    (splitStream 3).isExited = true ∧ (splitStream 3).state.error = false ∧
    ((splitStream 3).state.log.filter Event.isExecEof).length = 1 :=
  ⟨by decide, by decide,
   ((C7_end_of_input_flag lineExec splitReader 0 4 (freshParser 2) { data := 1000, size := 8 }
      zeroMem { input := [97, 98, 10, 99, 100], sizes := [3, 2] } splitReader_bounded
      (lineExec_keepsToken 1000) (by decide) (by decide) (by decide)).2.2 3 (by decide)
      (by decide)).2⟩

/-! ## C11: the depth counter of `jsontidy.c` -/

theorem wrapInt_of_range {x : Int} (h0 : 0 ≤ x) (h1 : x ≤ INT_MAX) : wrapInt x = x := by
  unfold wrapInt INT_MAX at *
  omega

theorem length_le_maxOpen (stack : List Container) (events : List WriterEvent) :
    stack.length ≤ maxOpen stack events := by
  cases events with
  | nil => exact Nat.le_refl _
  | cons e rest =>
    unfold maxOpen
    split
    · exact Nat.le_refl _
    · exact Nat.le_max_left _ _

theorem tidyRun_append (t : Tidy) (a b : List WriterEvent) :
    tidyRun t (a ++ b) = (tidyRun t a).bind (fun t2 => tidyRun t2 b) := by
  induction a generalizing t with
  | nil => rfl
  | cons e rest ih =>
    simp only [List.cons_append, tidyRun]
    cases tidyCall t e with
    | none => rfl
    | some r => exact ih r.1

theorem tidyOpen_depth (t : Tidy) (name : Option String) (bracket : String) :
    (tidyOpen t name bracket).1.userData.depth = wrapInt (t.userData.depth + 1) := by
  simp only [tidyOpen, fprintf]
  split_ifs <;> rfl

theorem tidyClose_depth (t : Tidy) (bracket : String) :
    (tidyClose t bracket).1.userData.depth = wrapInt (t.userData.depth - 1) :=
  rfl

/-- One body event that keeps the nesting: the callback returns, and the depth
counter follows the number of open containers. -/
theorem tidyCall_body (t : Tidy) (stack stack2 : List Container) (e : WriterEvent)
    (hd : t.userData.depth = stack.length) (hs : openStep stack e = some stack2)
    (hmax : (stack2.length : Int) ≤ INT_MAX) :
    ∃ r, tidyCall t e = some r ∧ r.1.userData.depth = stack2.length := by
  cases e with
  | writeArrayElement value =>
    simp only [openStep, Option.some.injEq] at hs
    subst hs
    exact ⟨_, rfl, hd⟩
  | writeObjectMember name value =>
    simp only [openStep, Option.some.injEq] at hs
    subst hs
    exact ⟨_, rfl, hd⟩
  | writeStart => simp [openStep] at hs
  | writeStop => simp [openStep] at hs
  | writeStartArray name =>
    simp only [openStep, Option.some.injEq] at hs
    subst hs
    refine ⟨_, rfl, ?_⟩
    show (tidyOpen t name "[").1.userData.depth = _
    rw [tidyOpen_depth, hd]
    simp only [List.length_cons, Nat.cast_add, Nat.cast_one] at hmax ⊢
    exact wrapInt_of_range (by omega) hmax
  | writeStartObject name =>
    simp only [openStep, Option.some.injEq] at hs
    subst hs
    refine ⟨_, rfl, ?_⟩
    show (tidyOpen t name "\x7b").1.userData.depth = _
    rw [tidyOpen_depth, hd]
    simp only [List.length_cons, Nat.cast_add, Nat.cast_one] at hmax ⊢
    exact wrapInt_of_range (by omega) hmax
  | writeStopArray =>
    cases stack with
    | nil => simp [openStep] at hs
    | cons c rest =>
      cases c with
      | object => simp [openStep] at hs
      | array =>
        simp only [openStep, Option.some.injEq] at hs
        subst hs
        refine ⟨_, rfl, ?_⟩
        show (tidyClose t "]").1.userData.depth = _
        rw [tidyClose_depth, hd]
        simp only [List.length_cons, Nat.cast_add, Nat.cast_one, add_sub_cancel_right]
        exact wrapInt_of_range (by omega) hmax
  | writeStopObject =>
    cases stack with
    | nil => simp [openStep] at hs
    | cons c rest =>
      cases c with
      | array => simp [openStep] at hs
      | object =>
        simp only [openStep, Option.some.injEq] at hs
        subst hs
        refine ⟨_, rfl, ?_⟩
        show (tidyClose t "\x7d").1.userData.depth = _
        rw [tidyClose_depth, hd]
        simp only [List.length_cons, Nat.cast_add, Nat.cast_one, add_sub_cancel_right]
        exact wrapInt_of_range (by omega) hmax

/-- Every leading part of a body that keeps the nesting runs to its end, and the
depth counter is then the number of open containers. -/
theorem tidyRun_body (pre post : List WriterEvent) (t : Tidy) (stack stack2 : List Container)
    (hd : t.userData.depth = stack.length)
    (hs : openAfter stack (pre ++ post) = some stack2)
    (hmax : (maxOpen stack (pre ++ post) : Int) ≤ INT_MAX) :
    ∃ t2 stk, tidyRun t pre = some t2 ∧ openAfter stack pre = some stk ∧
      t2.userData.depth = stk.length := by
  induction pre generalizing t stack with
  | nil => exact ⟨t, stack, rfl, rfl, hd⟩
  | cons e rest ih =>
    rw [List.cons_append] at hs hmax
    simp only [openAfter] at hs
    cases hstep : openStep stack e with
    | none => simp [hstep] at hs
    | some stack1 =>
      simp only [hstep] at hs
      have hmo : maxOpen stack (e :: (rest ++ post)) =
          max stack.length (maxOpen stack1 (rest ++ post)) := by
        simp only [maxOpen, hstep]
      rw [hmo] at hmax
      have hle := length_le_maxOpen stack1 (rest ++ post)
      have hr2 : maxOpen stack1 (rest ++ post) ≤ max stack.length (maxOpen stack1 (rest ++ post)) :=
        Nat.le_max_right _ _
      generalize max stack.length (maxOpen stack1 (rest ++ post)) = mx at hmax hr2
      have hmax1 : (maxOpen stack1 (rest ++ post) : Int) ≤ INT_MAX := by omega
      obtain ⟨r, hr, hdr⟩ := tidyCall_body t stack stack1 e hd hstep (by omega)
      obtain ⟨t2, stk, h1, h2, h3⟩ := ih r.1 stack1 hdr hs hmax1
      refine ⟨t2, stk, ?_, ?_, h3⟩
      · simp only [tidyRun, hr]
        exact h1
      · simp only [openAfter, hstep]
        exact h2

/-- C11. For every well-nested body of Writer events whose nesting stays within
the range of `int`, run between `writeStart` and `writeStop` from any user
data: after `writeStart` and after each event of the body the callbacks have
all returned and the depth counter equals the number of containers open at
that point, so it is never negative; it is 0 when `writeStop` runs, the
assertion in `writeStop` holds, and the whole sequence runs to its end. -/
theorem C11_depth_counts_open_containers (t : Tidy) (body : List WriterEvent)
    (hnest : WellNested body) (hmax : (maxOpen [] body : Int) ≤ INT_MAX) :
    (∀ pre post, body = pre ++ post →
      ∃ t2 stack, tidyRun t (WriterEvent.writeStart :: pre) = some t2 ∧
        openAfter [] pre = some stack ∧ t2.userData.depth = stack.length ∧
        0 ≤ t2.userData.depth) ∧
    (∃ t2, tidyRun t (WriterEvent.writeStart :: body) = some t2 ∧ t2.userData.depth = 0 ∧
      writeStop t2 = some (t2, true) ∧
      tidyRun t (WriterEvent.writeStart :: body ++ [WriterEvent.writeStop]) = some t2) := by
  have hstart : ∀ events, tidyRun t (WriterEvent.writeStart :: events) =
      tidyRun (writeStart t).1 events := fun _ => rfl
  have hd0 : (writeStart t).1.userData.depth = (([] : List Container).length : Int) := rfl
  constructor
  · intro pre post hbody
    subst hbody
    obtain ⟨t2, stk, h1, h2, h3⟩ := tidyRun_body pre post (writeStart t).1 [] [] hd0 hnest hmax
    refine ⟨t2, stk, ?_, h2, h3, ?_⟩
    · rw [hstart]; exact h1
    · rw [h3]; exact Int.natCast_nonneg _
  · have hb : openAfter [] (body ++ []) = some [] := by rw [List.append_nil]; exact hnest
    have hm : (maxOpen [] (body ++ []) : Int) ≤ INT_MAX := by rw [List.append_nil]; exact hmax
    obtain ⟨t2, stk, h1, h2, h3⟩ := tidyRun_body body [] (writeStart t).1 [] [] hd0 hb hm
    have hstk : stk = [] := by
      have : openAfter [] body = some [] := hnest
      rw [this] at h2
      exact (Option.some.inj h2).symm
    subst hstk
    have h0 : t2.userData.depth = 0 := by simpa using h3
    have hstop : writeStop t2 = some (t2, true) := by simp [writeStop, h0]
    refine ⟨t2, ?_, h0, hstop, ?_⟩
    · rw [hstart]; exact h1
    · rw [tidyRun_append, hstart, h1]
      simp [tidyRun, tidyCall, hstop]

/-- Witness of C11: the events of an array holding a number and an object with
an array member; three containers are open at most. -/
theorem C11_depth_counts_open_containers_witness :
    WellNested demoBody ∧
    ∃ t2, tidyRun tidyStart (WriterEvent.writeStart :: demoBody ++ [WriterEvent.writeStop]) =
      some t2 :=
  ⟨by unfold WellNested; decide,
   (C11_depth_counts_open_containers tidyStart demoBody (by unfold WellNested; decide)
     (by decide)).2.elim
     (fun t2 h => ⟨t2, h.2.2.2⟩)⟩

end JsonParser
